import Mathlib

/-!
Verification of the storage core of a small relational database (RMDB):
a slotted record-file format over a buffer pool, a forward scanner,
and a catalog with persistent metadata.

The development shallowly embeds the C++ sources:
`record/rm_file_handle.cpp`, `record/rm_scan.cpp`,
`storage/buffer_pool_manager.cpp`, `storage/disk_manager.cpp`,
`replacer/lru_replacer.cpp`, `system/sm_manager.cpp`, `system/sm_meta.h`.

Modelling conventions:
* page/slot numbers and on-disk integers are `Int` (C++ `int`), counts that
  are provably non-negative are `Nat`;
* record bytes are abstracted as `List Nat`;
* the record layer addresses pages through an idealized buffer pool
  (`fetch_page` succeeds for every in-range page); the pin discipline of the
  real pool is tracked separately through the `RmEvent` call log that every
  record-layer operation returns;
* the buffer pool itself is modelled separately (`BufferPool`) with its
  frames, page table, free list and LRU replacer.
-/

namespace Rmdb

/-- `RM_NO_PAGE = -1`: sentinel terminating the free-page chain. -/
def RM_NO_PAGE : Int := -1

/-- `RM_FIRST_RECORD_PAGE = 1`: the first data page of a record file
(page 0 is the file header). -/
def RM_FIRST_RECORD_PAGE : Int := 1

/-- `INVALID_PAGE_ID = -1`. -/
def INVALID_PAGE_ID : Int := -1

/-! ### Bitmap

`bitmap.h` is part of the repository but not under `src/`; the spec fixes its
semantics: bits are numbered `0..num_records_per_page-1`, `first_bit(v)`
returns the lowest index with value `v`, `next_bit(v, from)` returns the
lowest index `> from` with value `v`, or `n` if none.  The bitmap is modelled
as a `List Bool`; out-of-range reads are `false`. -/

/-- Modelled from the spec: helper search loop, running on the exact fuel
`d = n - k` (so `d = 0` is the loop exit `k ≥ n`). -/
def Bitmap.findFromGo (v : Bool) (bm : List Bool) (n : Nat) : Nat → Nat → Nat
  | 0, _ => n
  | d + 1, k => if bm.getD k false = v then k else Bitmap.findFromGo v bm n d (k + 1)

/-- Modelled from the spec: lowest index `i` with `k ≤ i < n` and
`bm[i] = v`, or `n` when there is none. -/
def Bitmap.findFrom (v : Bool) (bm : List Bool) (n k : Nat) : Nat :=
  Bitmap.findFromGo v bm n (n - k) k

/-- Modelled from the spec: `Bitmap::is_set` — bit `i` of the bitmap. -/
def Bitmap.is_set (bm : List Bool) (i : Int) : Bool :=
  decide (0 ≤ i) && bm.getD i.toNat false

/-- Modelled from the spec: `Bitmap::set` — set bit `i`. -/
def Bitmap.set (bm : List Bool) (i : Int) : List Bool :=
  bm.set i.toNat true

/-- Modelled from the spec: `Bitmap::reset` — clear bit `i`. -/
def Bitmap.reset (bm : List Bool) (i : Int) : List Bool :=
  bm.set i.toNat false

/-- Modelled from the spec: `Bitmap::first_bit(v)` — lowest index `< n` with
value `v`, or `n` when none. -/
def Bitmap.first_bit (v : Bool) (bm : List Bool) (n : Nat) : Nat :=
  Bitmap.findFrom v bm n 0

/-- Modelled from the spec: `Bitmap::next_bit(v, from)` — lowest index `> from`
(and `< n`) with value `v`, or `n` when none; `from` may be `-1`. -/
def Bitmap.next_bit (v : Bool) (bm : List Bool) (n : Nat) (fr : Int) : Nat :=
  Bitmap.findFrom v bm n (fr + 1).toNat

/-! ### Record-file data model (`rm_defs.h` view used by `rm_file_handle.cpp`) -/

/-- Record identifier `(page_no, slot_no)`. -/
structure Rid where
  page_no : Int
  slot_no : Int
  deriving DecidableEq, Repr

/-- Page header of a record page (`RmPageHdr`): link in the free chain and
number of live records on the page. -/
structure RmPageHdr where
  next_free_page_no : Int
  num_records : Int
  deriving DecidableEq, Repr

/-- One data page of a record file, as exposed by `RmPageHandle`: page header,
slot bitmap, and the fixed-size record slots (bytes abstracted as `List Nat`). -/
structure RmPage where
  hdr : RmPageHdr
  bitmap : List Bool
  slots : List (List Nat)
  deriving DecidableEq, Repr

instance : Inhabited RmPage := ⟨⟨⟨RM_NO_PAGE, 0⟩, [], []⟩⟩

/-- Record file header (`RmFileHdr`), held in memory as `file_hdr_`. -/
structure RmFileHdr where
  record_size : Nat
  num_records_per_page : Nat
  first_free_page_no : Int
  num_pages : Nat
  deriving DecidableEq, Repr

/-- In-memory state of an open record file: the file header plus its pages.
`pages[0]` stands for the header page (never a data page); `pages[p]` for
`p ≥ 1` is data page `p`.  The buffer pool is idealized at this level:
`fetch_page` succeeds for every in-range page. -/
structure RmFile where
  hdr : RmFileHdr
  pages : List RmPage
  deriving DecidableEq, Repr

/-- Page `p` of the file (default dummy when out of range). -/
def RmFile.page (f : RmFile) (p : Nat) : RmPage :=
  f.pages.getD p default

/-- Replace page `p` of the file. -/
def RmFile.setPage (f : RmFile) (p : Nat) (pg : RmPage) : RmFile :=
  { f with pages := f.pages.set p pg }

/-- Buffer-pool calls issued by a record-layer operation, for pin accounting:
`fetchEv p` is a `fetch_page` of page `p` (pin count +1), `unpinEv p d` an
`unpin_page` with dirty flag `d` (pin count -1), `newEv p` a `new_page`
returning page `p` (pin count set to 1). -/
inductive RmEvent where
  | fetchEv (p : Int)
  | unpinEv (p : Int) (dirty : Bool)
  | newEv (p : Int)
  deriving DecidableEq, Repr

/-- Error kinds thrown by the record layer (from `errors.h`). -/
inductive RmErr where
  | recordNotFound (p s : Int)
  | pageNotExist (p : Int)
  deriving DecidableEq, Repr

instance {e a : Type} [DecidableEq e] [DecidableEq a] : DecidableEq (Except e a) :=
  fun x y =>
    match x, y with
    | .ok v, .ok w =>
      if h : v = w then isTrue (by rw [h]) else isFalse (by
        intro hc
        exact h (Except.ok.inj hc))
    | .error v, .error w =>
      if h : v = w then isTrue (by rw [h]) else isFalse (by
        intro hc
        exact h (Except.error.inj hc))
    | .ok _, .error _ => isFalse (by intro hc; exact Except.noConfusion hc)
    | .error _, .ok _ => isFalse (by intro hc; exact Except.noConfusion hc)

/-- Does event `e` pin page `p` (a fetch or a new)? -/
def RmEvent.pinsPage (e : RmEvent) (p : Int) : Bool :=
  match e with
  | .fetchEv q => q == p
  | .newEv q => q == p
  | .unpinEv _ _ => false

/-- Does event `e` unpin page `p`? -/
def RmEvent.unpinsPage (e : RmEvent) (p : Int) : Bool :=
  match e with
  | .unpinEv q _ => q == p
  | _ => false

/-- Is `e` an unpin at all? -/
def RmEvent.isUnpin (e : RmEvent) : Bool :=
  match e with
  | .unpinEv _ _ => true
  | _ => false

/-- Net pin-count change of page `p` caused by the logged calls `evs`:
number of fetch/new calls minus number of unpin calls on `p`. -/
def netPinDelta (evs : List RmEvent) (p : Int) : Int :=
  ((evs.filter (fun e => e.pinsPage p)).length : Int) -
    ((evs.filter (fun e => e.unpinsPage p)).length : Int)

/-! ### Record-file operations (`rm_file_handle.cpp`)

Each operation returns its result (or the thrown error) together with the
buffer-pool calls it made, in order, up to the point where it returned or
threw. `fetch_page_handle` bounds-checks `page_no` against `num_pages`
before pinning, so a `PageNotExistError` logs no calls. -/

/-- `RmFileHandle::get_record`: fetch the page handle (pinning the page); if
the slot bit is clear, throw `RecordNotFoundError` — without unpinning;
otherwise copy `record_size` bytes out of the slot and unpin clean. -/
def RmFileHandle.get_record (f : RmFile) (rid : Rid) :
    Except RmErr (List Nat) × List RmEvent :=
  if rid.page_no < 0 ∨ (f.hdr.num_pages : Int) ≤ rid.page_no then
    (.error (.pageNotExist rid.page_no), [])
  else
    let pg := f.page rid.page_no.toNat
    if Bitmap.is_set pg.bitmap rid.slot_no then
      (.ok ((pg.slots.getD rid.slot_no.toNat []).take f.hdr.record_size),
        [.fetchEv rid.page_no, .unpinEv rid.page_no false])
    else
      (.error (.recordNotFound rid.page_no rid.slot_no), [.fetchEv rid.page_no])

/-- `RmFileHandle::create_new_page_handle`: allocate a fresh page through the
buffer pool (the disk manager's per-fd allocator hands out page numbers in
step with `num_pages`, so the new page number is the current `pages.length`),
zero the page header and bitmap, bump `num_pages`, and point
`first_free_page_no` at the new page (whose `next_free_page_no` is
`RM_NO_PAGE`). -/
def RmFileHandle.create_new_page_handle (f : RmFile) :
    RmFile × Nat × List RmEvent :=
  let pno := f.pages.length
  let newPg : RmPage :=
    { hdr := { next_free_page_no := RM_NO_PAGE, num_records := 0 },
      bitmap := List.replicate f.hdr.num_records_per_page false,
      slots := List.replicate f.hdr.num_records_per_page
        (List.replicate f.hdr.record_size 0) }
  ({ hdr := { f.hdr with
                num_pages := f.hdr.num_pages + 1,
                first_free_page_no := (pno : Int) },
     pages := f.pages ++ [newPg] },
   pno, [.newEv (pno : Int)])

/-- `RmFileHandle::create_page_handle`: the head of the free chain when the
chain is non-empty (fetched, hence pinned), else a freshly created page. -/
def RmFileHandle.create_page_handle (f : RmFile) :
    Except RmErr (RmFile × Nat) × List RmEvent :=
  if f.hdr.first_free_page_no = RM_NO_PAGE then
    let r := RmFileHandle.create_new_page_handle f
    (.ok (r.1, r.2.1), r.2.2)
  else if f.hdr.first_free_page_no < 0 ∨
      (f.hdr.num_pages : Int) ≤ f.hdr.first_free_page_no then
    (.error (.pageNotExist f.hdr.first_free_page_no), [])
  else
    (.ok (f, f.hdr.first_free_page_no.toNat),
      [.fetchEv f.hdr.first_free_page_no])

/-- `RmFileHandle::insert_record` (no rid): take a free page handle, find the
first clear bit, copy the record into that slot, set the bit, bump
`num_records`; when the page became full, pop it off the free chain
(`first_free_page_no := page.next_free_page_no`); unpin dirty; return the rid. -/
def RmFileHandle.insert_record (f : RmFile) (buf : List Nat) :
    Except RmErr (Rid × RmFile) × List RmEvent :=
  match RmFileHandle.create_page_handle f with
  | (.error e, evs) => (.error e, evs)
  | (.ok (f1, pno), evs) =>
    let pg := f1.page pno
    let slot := Bitmap.first_bit false pg.bitmap f1.hdr.num_records_per_page
    let pg1 : RmPage :=
      { hdr := { pg.hdr with num_records := pg.hdr.num_records + 1 },
        bitmap := Bitmap.set pg.bitmap (slot : Int),
        slots := pg.slots.set slot (buf.take f1.hdr.record_size) }
    let f2 := f1.setPage pno pg1
    let f3 :=
      if pg1.hdr.num_records = (f1.hdr.num_records_per_page : Int) then
        { f2 with hdr :=
          { f2.hdr with first_free_page_no := pg1.hdr.next_free_page_no } }
      else f2
    (.ok (⟨(pno : Int), (slot : Int)⟩, f3),
      evs ++ [.unpinEv (pno : Int) true])

/-- `RmFileHandle::insert_record` at a given rid: fetch the page; if the slot
bit was clear, set it, bump `num_records` and — when the page became full —
assign `first_free_page_no := page.next_free_page_no` exactly as the no-rid
insert does; then overwrite the slot bytes and unpin dirty. -/
def RmFileHandle.insert_record_at (f : RmFile) (rid : Rid) (buf : List Nat) :
    Except RmErr RmFile × List RmEvent :=
  if rid.page_no < 0 ∨ (f.hdr.num_pages : Int) ≤ rid.page_no then
    (.error (.pageNotExist rid.page_no), [])
  else
    let pno := rid.page_no.toNat
    let pg := f.page pno
    let step :=
      if Bitmap.is_set pg.bitmap rid.slot_no then (f, pg)
      else
        let pg1 : RmPage :=
          { pg with
              bitmap := Bitmap.set pg.bitmap rid.slot_no,
              hdr := { pg.hdr with num_records := pg.hdr.num_records + 1 } }
        let f1 := f.setPage pno pg1
        if pg1.hdr.num_records = (f.hdr.num_records_per_page : Int) then
          ({ f1 with hdr :=
             { f1.hdr with first_free_page_no := pg1.hdr.next_free_page_no } },
           pg1)
        else (f1, pg1)
    let pg2 := step.2
    let slots2 := pg2.slots.set rid.slot_no.toNat (buf.take f.hdr.record_size)
    (.ok (step.1.setPage pno { pg2 with slots := slots2 }),
      [.fetchEv rid.page_no, .unpinEv rid.page_no true])

/-- `RmFileHandle::delete_record`: fetch the page; `RecordNotFoundError`
(leaving the pin) when the slot bit is clear; else clear the bit, decrement
`num_records`, and when the page just went from full to one free slot
re-link it at the head of the free chain (`release_page_handle`); unpin dirty. -/
def RmFileHandle.delete_record (f : RmFile) (rid : Rid) :
    Except RmErr RmFile × List RmEvent :=
  if rid.page_no < 0 ∨ (f.hdr.num_pages : Int) ≤ rid.page_no then
    (.error (.pageNotExist rid.page_no), [])
  else
    let pno := rid.page_no.toNat
    let pg := f.page pno
    if Bitmap.is_set pg.bitmap rid.slot_no then
      let pg1 : RmPage :=
        { pg with
            bitmap := Bitmap.reset pg.bitmap rid.slot_no,
            hdr := { pg.hdr with num_records := pg.hdr.num_records - 1 } }
      if pg1.hdr.num_records = (f.hdr.num_records_per_page : Int) - 1 then
        -- release_page_handle: prepend the page to the free chain
        let pg2 := { pg1 with hdr :=
          { pg1.hdr with next_free_page_no := f.hdr.first_free_page_no } }
        (.ok { hdr := { f.hdr with first_free_page_no := rid.page_no },
               pages := f.pages.set pno pg2 },
          [.fetchEv rid.page_no, .unpinEv rid.page_no true])
      else
        (.ok (f.setPage pno pg1),
          [.fetchEv rid.page_no, .unpinEv rid.page_no true])
    else
      (.error (.recordNotFound rid.page_no rid.slot_no), [.fetchEv rid.page_no])

/-- `RmFileHandle::update_record`: fetch the page; `RecordNotFoundError`
(leaving the pin) when the slot bit is clear; else overwrite the slot bytes
and unpin dirty. -/
def RmFileHandle.update_record (f : RmFile) (rid : Rid) (buf : List Nat) :
    Except RmErr RmFile × List RmEvent :=
  if rid.page_no < 0 ∨ (f.hdr.num_pages : Int) ≤ rid.page_no then
    (.error (.pageNotExist rid.page_no), [])
  else
    let pno := rid.page_no.toNat
    let pg := f.page pno
    if Bitmap.is_set pg.bitmap rid.slot_no then
      let slots1 := pg.slots.set rid.slot_no.toNat (buf.take f.hdr.record_size)
      (.ok (f.setPage pno { pg with slots := slots1 }),
        [.fetchEv rid.page_no, .unpinEv rid.page_no true])
    else
      (.error (.recordNotFound rid.page_no rid.slot_no), [.fetchEv rid.page_no])

/-- Modelled from the spec: the in-memory state right after
`RmManager::create_file` + `open_file` (rm_manager.h is not under `src/`):
only the header page exists, `num_pages = 1`, and the free chain is empty. -/
def RmFile.freshFile (record_size num_records_per_page : Nat) : RmFile :=
  { hdr := { record_size := record_size,
             num_records_per_page := num_records_per_page,
             first_free_page_no := RM_NO_PAGE,
             num_pages := 1 },
    pages := [default] }

/-! ### The free-chain invariant (spec §4.4 / §8) -/

/-- Follow the free chain from `p` for at most `fuel` steps; `some l` lists the
visited page numbers when the chain reaches `RM_NO_PAGE`, `none` marks a
dangling page number or a chain longer than `fuel` (a cycle). -/
def RmFile.chainFrom (f : RmFile) (p : Int) (fuel : Nat) : Option (List Int) :=
  if p = RM_NO_PAGE then some []
  else
    match fuel with
    | 0 => none
    | fuel + 1 =>
      if p < 1 ∨ (f.hdr.num_pages : Int) ≤ p then none
      else
        match f.chainFrom (f.page p.toNat).hdr.next_free_page_no fuel with
        | some l => some (p :: l)
        | none => none

/-- Does data page `p` have at least one free slot
(`num_records < num_records_per_page`)? -/
def RmFile.hasFreeSlot (f : RmFile) (p : Nat) : Bool :=
  decide ((f.page p).hdr.num_records < (f.hdr.num_records_per_page : Int))

/-- The free-chain invariant, decidably: the chain rooted at
`first_free_page_no` reaches `RM_NO_PAGE` within `num_pages` steps, and every
data page occurs in it exactly once when it has at least one free slot and
zero times when it is full. -/
def RmFile.freeChainInvB (f : RmFile) : Bool :=
  match f.chainFrom f.hdr.first_free_page_no f.hdr.num_pages with
  | none => false
  | some l =>
    (List.range f.hdr.num_pages).all fun p =>
      p == 0 || l.count (p : Int) == (if f.hasFreeSlot p then 1 else 0)

/-! ### Forward scan (`rm_scan.cpp`)

`RmScan` keeps a cursor `rid_`; the constructor sets it to
`(RM_FIRST_RECORD_PAGE, -1)` and calls `next()`.  `next()` loops while
`page_no < num_pages`, fetching the page (the loop body contains **no**
`unpin_page` call) and searching the bitmap for the next set bit strictly
after the current slot; when a page is exhausted it moves to the next page
with `slot_no = -1`; when pages are exhausted it sets `page_no = RM_NO_PAGE`.

Inside the loop `page_no ≥ 1` always holds for a scan started by the
constructor, so the model reads the page with `page_no.toNat`. -/

/-- The loop of `RmScan::next`, on the exact fuel
`d = (num_pages - page_no).toNat` (so `d = 0` is the loop exit
`page_no ≥ num_pages`, which sets `page_no = RM_NO_PAGE`). -/
def RmScan.nextLoopGo (f : RmFile) : Nat → Int → Int → Rid
  | 0, _, s => ⟨RM_NO_PAGE, s⟩
  | d + 1, p, s =>
    let j := Bitmap.next_bit true (f.page p.toNat).bitmap
      f.hdr.num_records_per_page s
    if (j : Int) < (f.hdr.num_records_per_page : Int) then ⟨p, (j : Int)⟩
    else RmScan.nextLoopGo f d (p + 1) (-1)

/-- `RmScan::next`, returning the new cursor. -/
def RmScan.nextLoop (f : RmFile) (p s : Int) : Rid :=
  RmScan.nextLoopGo f ((f.hdr.num_pages : Int) - p).toNat p s

/-- The `fetch_page` calls issued by one `RmScan::next` invocation (same fuel
discipline as `nextLoopGo`): one fetch per loop iteration.  None of them is
matched by an `unpin_page` — the loop body of `RmScan::next` never calls
`unpin_page`. -/
def RmScan.nextLoopEventsGo (f : RmFile) : Nat → Int → Int → List RmEvent
  | 0, _, _ => []
  | d + 1, p, s =>
    let j := Bitmap.next_bit true (f.page p.toNat).bitmap
      f.hdr.num_records_per_page s
    if (j : Int) < (f.hdr.num_records_per_page : Int) then [.fetchEv p]
    else .fetchEv p :: RmScan.nextLoopEventsGo f d (p + 1) (-1)

/-- The `fetch_page` calls issued by one `RmScan::next` invocation. -/
def RmScan.nextLoopEvents (f : RmFile) (p s : Int) : List RmEvent :=
  RmScan.nextLoopEventsGo f ((f.hdr.num_pages : Int) - p).toNat p s

/-- Cursor right after the `RmScan` constructor:
`rid_ = (RM_FIRST_RECORD_PAGE, -1)` followed by `next()`. -/
def RmScan.start (f : RmFile) : Rid :=
  RmScan.nextLoop f RM_FIRST_RECORD_PAGE (-1)

/-- `RmScan::is_end`: the cursor page is `RM_NO_PAGE`. -/
def RmScan.is_end (r : Rid) : Bool :=
  r.page_no == RM_NO_PAGE

/-- The rids visited by a full forward scan from cursor `r`: emit the cursor
and step with `next()` while `is_end()` is false.  `fuel` bounds the number of
visited rids; any `fuel ≥` the number of live records suffices. -/
def RmScan.traceAux (f : RmFile) (fuel : Nat) (r : Rid) : List Rid :=
  match fuel with
  | 0 => []
  | fuel + 1 =>
    if RmScan.is_end r then []
    else r :: RmScan.traceAux f fuel (RmScan.nextLoop f r.page_no r.slot_no)

/-- All rids visited by a full forward scan of `f`. -/
def RmScan.trace (f : RmFile) : List Rid :=
  RmScan.traceAux f (f.hdr.num_pages * f.hdr.num_records_per_page + 1)
    (RmScan.start f)

/-- The cursor after a full forward scan from `r` has terminated. -/
def RmScan.finalAux (f : RmFile) (fuel : Nat) (r : Rid) : Rid :=
  match fuel with
  | 0 => r
  | fuel + 1 =>
    if RmScan.is_end r then r
    else RmScan.finalAux f fuel (RmScan.nextLoop f r.page_no r.slot_no)

/-- The cursor after a full forward scan of `f` has terminated. -/
def RmScan.final (f : RmFile) : Rid :=
  RmScan.finalAux f (f.hdr.num_pages * f.hdr.num_records_per_page + 1)
    (RmScan.start f)

/-- The `fetch_page` calls issued by a full forward scan of `f`:
those of the constructor's `next()` plus those of each subsequent `next()`. -/
def RmScan.scanEventsAux (f : RmFile) (fuel : Nat) (r : Rid) : List RmEvent :=
  match fuel with
  | 0 => []
  | fuel + 1 =>
    if RmScan.is_end r then []
    else RmScan.nextLoopEvents f r.page_no r.slot_no ++
      RmScan.scanEventsAux f fuel (RmScan.nextLoop f r.page_no r.slot_no)

/-- All buffer-pool calls made during a full forward scan of `f`
(constructor plus the `next()` calls of the scan loop). -/
def RmScan.fullScanEvents (f : RmFile) : List RmEvent :=
  RmScan.nextLoopEvents f RM_FIRST_RECORD_PAGE (-1) ++
    RmScan.scanEventsAux f (f.hdr.num_pages * f.hdr.num_records_per_page + 1)
      (RmScan.start f)

/-! ### The live rids of a record file, in scan order -/

/-- The indices `i` with `k ≤ i < n` and `bm[i] = true`, ascending
(loop on the exact fuel `d = n - k`). -/
def liveListGo (bm : List Bool) (n : Nat) : Nat → Nat → List Nat
  | 0, _ => []
  | d + 1, k =>
    if bm.getD k false then k :: liveListGo bm n d (k + 1)
    else liveListGo bm n d (k + 1)

/-- The indices `i` with `k ≤ i < n` and `bm[i] = true`, ascending. -/
def liveList (bm : List Bool) (n k : Nat) : List Nat :=
  liveListGo bm n (n - k) k

/-- The live rids of pages `[p, num_pages)`, ordered by page then slot
(loop on the exact fuel `d = num_pages - p`). -/
def RmFile.liveFromGo (f : RmFile) : Nat → Nat → List Rid
  | 0, _ => []
  | d + 1, p =>
    (liveList (f.page p).bitmap f.hdr.num_records_per_page 0).map
      (fun i => ⟨(p : Int), (i : Int)⟩) ++ f.liveFromGo d (p + 1)

/-- The live rids of pages `[p, num_pages)`, ordered by page then slot. -/
def RmFile.liveFrom (f : RmFile) (p : Nat) : List Rid :=
  f.liveFromGo (f.hdr.num_pages - p) p

/-- All live rids of the file, in scan order (data pages start at page 1). -/
def RmFile.liveRids (f : RmFile) : List Rid :=
  f.liveFrom 1

/-- The live rids strictly after cursor position `(p, s)`: the live slots of
page `p` past `s`, then all live rids of the later pages. -/
def RmFile.liveAfter (f : RmFile) (p : Nat) (s : Int) : List Rid :=
  if p < f.hdr.num_pages then
    (liveList (f.page p).bitmap f.hdr.num_records_per_page (s + 1).toNat).map
      (fun i => ⟨(p : Int), (i : Int)⟩) ++ f.liveFrom (p + 1)
  else []

/-- `r` is a live rid of `f`: a data page in range and a set slot bit. -/
def RmFile.isLiveRid (f : RmFile) (r : Rid) : Prop :=
  1 ≤ r.page_no ∧ r.page_no < (f.hdr.num_pages : Int) ∧
    0 ≤ r.slot_no ∧ r.slot_no < (f.hdr.num_records_per_page : Int) ∧
    (f.page r.page_no.toNat).bitmap.getD r.slot_no.toNat false = true

instance (f : RmFile) (r : Rid) : Decidable (f.isLiveRid r) := by
  unfold RmFile.isLiveRid; infer_instance

/-- Scan order on rids: earlier page, or same page and earlier slot. -/
def ridLt (a b : Rid) : Prop :=
  a.page_no < b.page_no ∨ (a.page_no = b.page_no ∧ a.slot_no < b.slot_no)

instance (a b : Rid) : Decidable (ridLt a b) := by
  unfold ridLt; infer_instance

/-- Well-formedness used by the insert path: the header's page count tracks
the page list, pages carry at least one slot, and a non-empty free chain has
an in-range head page whose bitmap and slot arrays have the declared size and
which really offers a free slot (a consequence of the free-chain invariant
and of `create_file`'s layout computation). -/
def RmFile.insertWF (f : RmFile) : Prop :=
  f.hdr.num_pages = f.pages.length ∧
  0 < f.hdr.num_records_per_page ∧
  (f.hdr.first_free_page_no = RM_NO_PAGE ∨
    (1 ≤ f.hdr.first_free_page_no ∧
     f.hdr.first_free_page_no < (f.hdr.num_pages : Int) ∧
     (f.page f.hdr.first_free_page_no.toNat).bitmap.length =
       f.hdr.num_records_per_page ∧
     (f.page f.hdr.first_free_page_no.toNat).slots.length =
       f.hdr.num_records_per_page ∧
     Bitmap.first_bit false (f.page f.hdr.first_free_page_no.toNat).bitmap
       f.hdr.num_records_per_page < f.hdr.num_records_per_page))

instance (f : RmFile) : Decidable f.insertWF := by
  unfold RmFile.insertWF
  infer_instance

/-! ### Catalog metadata and index backfill (`sm_meta.h`, `sm_manager.cpp`) -/

/-- Column metadata (`ColMeta`).  `type` carries the `ColType` enum as the
integer code it is serialized as (defs.h is not under `src/`; the spec fixes
"types are printed as their integer code"). -/
structure ColMeta where
  tab_name : String
  name : String
  type : Int
  len : Int
  offset : Int
  index : Bool
  deriving DecidableEq, Repr

/-- The composite-key construction of `SmManager::create_index`'s backfill
loop: `memcpy(key + offset, record->data + col.offset, col.len)` for each
collected column in turn — the byte ranges
`record[col.offset .. col.offset + col.len)` concatenated in the order of the
`cols` list. -/
def buildKey (rec : List Nat) (cols : List ColMeta) : List Nat :=
  (cols.map (fun c => (rec.drop c.offset.toNat).take c.len.toNat)).flatten

/-- The bytes of the record at `rid`, as `get_record` returns them. -/
def RmFile.recordOf (f : RmFile) (r : Rid) : List Nat :=
  ((f.page r.page_no.toNat).slots.getD r.slot_no.toNat []).take f.hdr.record_size

/-- The backfill loop of `SmManager::create_index`: scan the table's record
file; for each visited rid, `get_record`, build the composite key from the
collected columns, and `insert_entry(key, rid)`; stop at scan end.  The index
internals are out of scope (ix.h is not under `src/`); Modelled from the
spec: `insert_entry` accumulates the `(key, rid)` pairs in call order.  A
thrown `get_record` error would abort `create_index`; it is never hit on
scan-visited rids.  Fuel as in `RmScan.trace`. -/
def SmManager.backfillGo (f : RmFile) (cols : List ColMeta) :
    Nat → Rid → List (List Nat × Rid)
  | 0, _ => []
  | fuel + 1, r =>
    if RmScan.is_end r then []
    else
      match (RmFileHandle.get_record f r).1 with
      | .error _ => []
      | .ok rec => (buildKey rec cols, r) ::
          SmManager.backfillGo f cols fuel (RmScan.nextLoop f r.page_no r.slot_no)

/-- The `(key, rid)` pairs inserted by `create_index`'s backfill over the
whole file. -/
def SmManager.backfill (f : RmFile) (cols : List ColMeta) :
    List (List Nat × Rid) :=
  SmManager.backfillGo f cols
    (f.hdr.num_pages * f.hdr.num_records_per_page + 1) (RmScan.start f)

/-- `TabMeta::get_col`: the first column with the given name, if any. -/
def TabMeta.get_col? (cols : List ColMeta) (nm : String) : Option ColMeta :=
  cols.find? (fun c => c.name == nm)

/-- The column-collection loop at the head of `SmManager::create_index`:
`cols.push_back(*tab.get_col(col_name))` for each requested name, in the
order of the `col_names` argument (`ColumnNotFoundError` when absent). -/
def SmManager.collectIndexCols (tabCols : List ColMeta) (names : List String) :
    Option (List ColMeta) :=
  match names with
  | [] => some []
  | nm :: rest =>
    match TabMeta.get_col? tabCols nm with
    | none => none
    | some c =>
      match SmManager.collectIndexCols tabCols rest with
      | none => none
      | some cs => some (c :: cs)

/-- The claim's reading of the key (refinement target, following the claim's
words): the indexed columns taken in the table's column declaration order. -/
def buildKeyDeclOrder (rec : List Nat) (tabCols : List ColMeta)
    (names : List String) : List Nat :=
  buildKey rec (tabCols.filter (fun c => names.contains c.name))

/-! ### Catalog serialization (`sm_meta.h`) and DDL metadata (`sm_manager.cpp`)

The catalog file is whitespace-separated tokens written and read with the
`operator<<` / `operator>>` overloads of `DbMeta`, `TabMeta`, `ColMeta` and
`IndexMeta`.  A token is a string or an integer (enum codes and bools are
written as integers); the stream is modelled as a `List Tok`. -/

/-- One whitespace-separated token of the catalog file. -/
inductive Tok where
  | s (v : String)
  | i (v : Int)
  deriving DecidableEq, Repr

/-- `operator<<` on `bool` (no `boolalpha`): `0` or `1`. -/
def serBool (b : Bool) : Tok :=
  .i (if b then 1 else 0)

/-- `ColMeta::operator<<`: `tab name type len offset index`. -/
def ColMeta.ser (c : ColMeta) : List Tok :=
  [.s c.tab_name, .s c.name, .i c.type, .i c.len, .i c.offset, serBool c.index]

/-- `ColMeta::operator>>`: reads the six fields; `operator>>` on `bool`
accepts only `0` or `1` (anything else sets `failbit`). -/
def ColMeta.parse (ts : List Tok) : Option (ColMeta × List Tok) :=
  match ts with
  | .s tab :: .s nm :: .i ty :: .i ln :: .i off :: .i ix :: rest =>
    if ix = 0 then some (⟨tab, nm, ty, ln, off, false⟩, rest)
    else if ix = 1 then some (⟨tab, nm, ty, ln, off, true⟩, rest)
    else none
  | _ => none

/-- Index metadata (`IndexMeta`). -/
structure IndexMeta where
  tab_name : String
  index_name : String
  col_tot_len : Int
  col_num : Int
  cols : List ColMeta
  offsets : List Int
  deriving DecidableEq, Repr

/-- The per-column key offsets `calculate_offsets` would fill in:
running sums of the column lengths. -/
def colOffsets (cols : List ColMeta) : List Int :=
  (cols.foldl (fun acc c => (acc.1 ++ [acc.2], acc.2 + c.len)) ([], 0)).1

/-- `IndexMeta::calculate_offsets`: a no-op when `offsets` is non-empty,
else fill it with the running sums of the column lengths. -/
def IndexMeta.calculate_offsets (m : IndexMeta) : IndexMeta :=
  if m.offsets.isEmpty then { m with offsets := colOffsets m.cols } else m

/-- `IndexMeta::operator<<`: `tab index_name col_tot_len col_num` then the
columns.  `offsets` is **not** written. -/
def IndexMeta.ser (m : IndexMeta) : List Tok :=
  .s m.tab_name :: .s m.index_name :: .i m.col_tot_len :: .i m.col_num ::
    (m.cols.map ColMeta.ser).flatten

/-- The `for (i = 0; i < col_num; ++i) is >> col` loop shared by the
`IndexMeta` and `TabMeta` readers. -/
def parseColsLoop : Nat → List Tok → Option (List ColMeta × List Tok)
  | 0, ts => some ([], ts)
  | k + 1, ts =>
    match ColMeta.parse ts with
    | none => none
    | some (c, rest) =>
      match parseColsLoop k rest with
      | none => none
      | some (cs, rest2) => some (c :: cs, rest2)

/-- `IndexMeta::operator>>`: header fields then `col_num` columns
(a negative `col_num` runs zero iterations).  The freshly default-constructed
`IndexMeta` keeps `offsets` empty — the reader never touches it. -/
def IndexMeta.parse (ts : List Tok) : Option (IndexMeta × List Tok) :=
  match ts with
  | .s tab :: .s ixn :: .i tot :: .i num :: rest =>
    match parseColsLoop num.toNat rest with
    | none => none
    | some (cs, rest2) => some (⟨tab, ixn, tot, num, cs, []⟩, rest2)
  | _ => none

/-- Table metadata (`TabMeta`).  `indexes` models the `unordered_map` as an
insertion-ordered association list; `index_names_map` is the index-name cache
(never serialized). -/
structure TabMeta where
  name : String
  cols : List ColMeta
  indexes : List (String × IndexMeta)
  index_names_map : List (List String × String)
  deriving DecidableEq, Repr

/-- `TabMeta::operator<<`: name, column count, columns, index count, then
`index_name` followed by the `IndexMeta` for each index. -/
def TabMeta.ser (t : TabMeta) : List Tok :=
  .s t.name :: .i (t.cols.length : Int) :: ((t.cols.map ColMeta.ser).flatten ++
    .i (t.indexes.length : Int) ::
      (t.indexes.map (fun p => Tok.s p.1 :: p.2.ser)).flatten)

/-- The index-reading loop of `TabMeta::operator>>` (`is >> index_name`,
`is >> index`, `emplace`). -/
def parseIndexesLoop :
    Nat → List Tok → Option (List (String × IndexMeta) × List Tok)
  | 0, ts => some ([], ts)
  | k + 1, ts =>
    match ts with
    | .s nm :: rest =>
      match IndexMeta.parse rest with
      | none => none
      | some (ix, rest2) =>
        match parseIndexesLoop k rest2 with
        | none => none
        | some (ixs, rest3) => some ((nm, ix) :: ixs, rest3)
    | _ => none

/-- `TabMeta::operator>>`. -/
def TabMeta.parse (ts : List Tok) : Option (TabMeta × List Tok) :=
  match ts with
  | .s nm :: .i ncols :: rest =>
    match parseColsLoop ncols.toNat rest with
    | none => none
    | some (cs, rest2) =>
      match rest2 with
      | .i nixs :: rest3 =>
        match parseIndexesLoop nixs.toNat rest3 with
        | none => none
        | some (ixs, rest4) => some (⟨nm, cs, ixs, []⟩, rest4)
      | _ => none
  | _ => none

/-- Database metadata (`DbMeta`): the `std::map` of tables is modelled as an
association list kept sorted by key. -/
structure DbMeta where
  name : String
  tabs : List (String × TabMeta)
  deriving DecidableEq, Repr

/-- `DbMeta::operator<<`: name, table count, then each table (the map key is
not written; it is recovered from `tab.name` on read). -/
def DbMeta.ser (db : DbMeta) : List Tok :=
  .s db.name :: .i (db.tabs.length : Int) :: (db.tabs.map (fun p => p.2.ser)).flatten

/-- `std::map::operator[] =`: ordered insert-or-replace by key. -/
def mapInsertTab (k : String) (v : TabMeta) :
    List (String × TabMeta) → List (String × TabMeta)
  | [] => [(k, v)]
  | (k2, v2) :: rest =>
    if k = k2 then (k, v) :: rest
    else if k < k2 then (k, v) :: (k2, v2) :: rest
    else (k2, v2) :: mapInsertTab k v rest

/-- The table-reading loop of `DbMeta::operator>>`
(`is >> tab; tabs_[tab.name] = tab`). -/
def parseTabsLoop :
    Nat → List Tok → List (String × TabMeta) →
      Option (List (String × TabMeta) × List Tok)
  | 0, ts, acc => some (acc, ts)
  | k + 1, ts, acc =>
    match TabMeta.parse ts with
    | none => none
    | some (tab, rest) => parseTabsLoop k rest (mapInsertTab tab.name tab acc)

/-- `DbMeta::operator>>`. -/
def DbMeta.parse (ts : List Tok) : Option (DbMeta × List Tok) :=
  match ts with
  | .s nm :: .i ntabs :: rest =>
    match parseTabsLoop ntabs.toNat rest [] with
    | none => none
    | some (tabs, rest2) => some (⟨nm, tabs⟩, rest2)
  | _ => none

/-- A column definition handed to `create_table` (`ColDef`: name, type code,
length). -/
structure ColDef where
  name : String
  type : Int
  len : Int
  deriving DecidableEq, Repr

/-- The metadata effect of `SmManager::create_table`: pack the columns at
increasing offsets in declaration order, `index = false`. -/
def SmManager.create_table_meta (tab_name : String) (col_defs : List ColDef) :
    TabMeta :=
  { name := tab_name,
    cols := (col_defs.foldl (fun acc cd =>
      (acc.1 ++ [ColMeta.mk tab_name cd.name cd.type cd.len acc.2 false],
       acc.2 + cd.len)) (([] : List ColMeta), (0 : Int))).1,
    indexes := [],
    index_names_map := [] }

/-- Modelled from the spec: `IxManager::get_index_name` (ix.h is not under
`src/`) — the deterministic index file name
`tab_name + ("_" + col_name)* + ".idx"`. -/
def IxManager.get_index_name (tab_name : String) (cols : List ColMeta) :
    String :=
  (cols.foldl (fun acc c => acc ++ "_" ++ c.name) tab_name) ++ ".idx"

/-- `std::unordered_map::operator[] =` on the `indexes` map:
insert-or-replace, insertion order kept. -/
def umapInsert (k : String) (v : IndexMeta) (l : List (String × IndexMeta)) :
    List (String × IndexMeta) :=
  if (l.find? (fun p => p.1 == k)).isSome then
    l.map (fun p => if p.1 == k then (k, v) else p)
  else l ++ [(k, v)]

/-- The metadata effect of `SmManager::create_index` on the table: collect
the requested columns (argument order), name the index, reject duplicates,
build the `IndexMeta` by assigning `tab_name`, `cols`, `col_num`,
`col_tot_len` and `index_name` — `calculate_offsets` is never called, so
`offsets` stays empty — set `index = true` on the indexed table columns, and
store the entry in `indexes`.  Returns the index name, the new `IndexMeta`
and the updated `TabMeta`. -/
def SmManager.create_index_meta (tab : TabMeta) (col_names : List String) :
    Option (String × IndexMeta × TabMeta) :=
  match SmManager.collectIndexCols tab.cols col_names with
  | none => none
  | some cols =>
    let ix_name := IxManager.get_index_name tab.name cols
    if (tab.indexes.find? (fun p => p.1 == ix_name)).isSome then none
    else
      let idx : IndexMeta :=
        { tab_name := tab.name,
          index_name := ix_name,
          col_tot_len := cols.foldl (fun acc c => acc + c.len) 0,
          col_num := (cols.length : Int),
          cols := cols,
          offsets := [] }
      some (ix_name, idx,
        { tab with
            cols := tab.cols.map (fun c =>
              if col_names.contains c.name then { c with index := true } else c),
            indexes := umapInsert ix_name idx tab.indexes })

/-! ### Concrete example states used by witnesses and counterexamples -/

/-- A small record file: one data page, two slots per page, slot 0 live. -/
def exampleFile : RmFile :=
  { hdr := { record_size := 1, num_records_per_page := 2,
             first_free_page_no := 1, num_pages := 2 },
    pages := [default,
      { hdr := { next_free_page_no := RM_NO_PAGE, num_records := 1 },
        bitmap := [true, false], slots := [[7], [0]] }] }

/-! States of a record file with one slot per page (`record_size = 1`,
`num_records_per_page = 1`), along the operation sequence
insert `[10]`; insert `[11]`; delete `(1,0)`; delete `(2,0)`;
insert-at `(1,0)` `[12]`.  Each state below is the literal result of the
previous step, as proved in the free-chain theorem. -/

/-- After insert `[10]`: page 1 created and full, free chain empty. -/
def chainFile1 : RmFile :=
  { hdr := { record_size := 1, num_records_per_page := 1,
             first_free_page_no := RM_NO_PAGE, num_pages := 2 },
    pages := [default,
      { hdr := { next_free_page_no := RM_NO_PAGE, num_records := 1 },
        bitmap := [true], slots := [[10]] }] }

/-- After insert `[11]`: page 2 created and full, free chain empty. -/
def chainFile2 : RmFile :=
  { hdr := { record_size := 1, num_records_per_page := 1,
             first_free_page_no := RM_NO_PAGE, num_pages := 3 },
    pages := [default,
      { hdr := { next_free_page_no := RM_NO_PAGE, num_records := 1 },
        bitmap := [true], slots := [[10]] },
      { hdr := { next_free_page_no := RM_NO_PAGE, num_records := 1 },
        bitmap := [true], slots := [[11]] }] }

/-- After delete `(1,0)`: page 1 re-linked, free chain `[1]`. -/
def chainFile3 : RmFile :=
  { hdr := { record_size := 1, num_records_per_page := 1,
             first_free_page_no := 1, num_pages := 3 },
    pages := [default,
      { hdr := { next_free_page_no := RM_NO_PAGE, num_records := 0 },
        bitmap := [false], slots := [[10]] },
      { hdr := { next_free_page_no := RM_NO_PAGE, num_records := 1 },
        bitmap := [true], slots := [[11]] }] }

/-- After delete `(2,0)`: page 2 re-linked, free chain `[2, 1]`. -/
def chainFile4 : RmFile :=
  { hdr := { record_size := 1, num_records_per_page := 1,
             first_free_page_no := 2, num_pages := 3 },
    pages := [default,
      { hdr := { next_free_page_no := RM_NO_PAGE, num_records := 0 },
        bitmap := [false], slots := [[10]] },
      { hdr := { next_free_page_no := 1, num_records := 0 },
        bitmap := [false], slots := [[11]] }] }

/-- After insert-at `(1,0)`: page 1 full again and popped as if it were the
chain head — the chain is empty although page 2 still has a free slot. -/
def chainFile5 : RmFile :=
  { hdr := { record_size := 1, num_records_per_page := 1,
             first_free_page_no := RM_NO_PAGE, num_pages := 3 },
    pages := [default,
      { hdr := { next_free_page_no := RM_NO_PAGE, num_records := 1 },
        bitmap := [true], slots := [[12]] },
      { hdr := { next_free_page_no := 1, num_records := 0 },
        bitmap := [false], slots := [[11]] }] }

/-- A two-int-column table `t`: `a` at offset 0, `b` at offset 4. -/
def idxTabCols : List ColMeta :=
  [⟨"t", "a", 1, 4, 0, false⟩, ⟨"t", "b", 1, 4, 4, false⟩]

/-- A record file for `t` with one live 8-byte record at rid `(1,0)`. -/
def idxFile : RmFile :=
  { hdr := { record_size := 8, num_records_per_page := 1,
             first_free_page_no := RM_NO_PAGE, num_pages := 2 },
    pages := [default,
      { hdr := { next_free_page_no := RM_NO_PAGE, num_records := 1 },
        bitmap := [true], slots := [[10, 11, 12, 13, 14, 15, 16, 17]] }] }

/-- The catalog state of the persistence scenario: `create_db("d")`,
`create_table("t", [(a:int,4),(b:int,4)])` (`1` as the integer code of the
int column type), then `create_index("t", ["a"])`. -/
def C3scenario : Option DbMeta :=
  (SmManager.create_index_meta
      (SmManager.create_table_meta "t" [⟨"a", 1, 4⟩, ⟨"b", 1, 4⟩]) ["a"]).map
    (fun r => ⟨"d", mapInsertTab "t" r.2.2 []⟩)

/-- The catalog state of the scenario, extracted. -/
def C3db : DbMeta :=
  C3scenario.getD ⟨"", []⟩

/-! ### Buffer pool

Model of `storage/buffer_pool_manager.cpp` and `replacer/lru_replacer.cpp`.
Frames are indexed by `Nat`; the frame array, the page table, the disk image
and the per-file allocation counters are total functions, so updates are
pointwise.  A frame whose `PageId.page_no` is `INVALID_PAGE_ID` holds no
page.  Page data is abstracted to a single `Nat` token. -/

/-- The `PageId` of `page.h`: a file descriptor and a page number. -/
structure PageId where
  fd : Int
  page_no : Int
deriving DecidableEq, Repr

/-- The `Page` of `page.h`: frame metadata plus its data (one abstract
token).  `pin_count_` is an `int` the code keeps non-negative, so `Nat`. -/
structure Page where
  id : PageId
  pin_count : Nat
  is_dirty : Bool
  data : Nat
deriving DecidableEq, Repr

/-- `LRUReplacer` (`lru_replacer.cpp`): `LRUlist_` holds the evictable
frames, most recently unpinned at the front; `LRUhash_` (not modelled) maps
each frame to its single occurrence.  `max_size_` bounds the list. -/
structure LRUReplacer where
  lru_list : List Nat
  max_size : Nat
deriving DecidableEq, Repr

/-- `LRUReplacer::Size`: the number of evictable frames. -/
def LRUReplacer.Size (r : LRUReplacer) : Nat :=
  r.lru_list.length

/-- `LRUReplacer::victim`: pop the least recently used frame off the back
of `LRUlist_` (dropping its `LRUhash_` entry); fail on an empty list. -/
def LRUReplacer.victim (r : LRUReplacer) : Option Nat × LRUReplacer :=
  match r.lru_list.getLast? with
  | none => (none, r)
  | some f => (some f, { r with lru_list := r.lru_list.dropLast })

/-- `LRUReplacer::pin`: remove the frame from `LRUlist_` if present (via
its `LRUhash_` iterator, i.e. its single occurrence). -/
def LRUReplacer.pin (r : LRUReplacer) (f : Nat) : LRUReplacer :=
  { r with lru_list := r.lru_list.erase f }

/-- `LRUReplacer::unpin`: insert the frame at the front of `LRUlist_`,
unless it is already present or the list has reached `max_size_`. -/
def LRUReplacer.unpin (r : LRUReplacer) (f : Nat) : LRUReplacer :=
  if f ∈ r.lru_list then r
  else if r.max_size ≤ r.lru_list.length then r
  else { r with lru_list := f :: r.lru_list }

/-- `BufferPoolManager` (`buffer_pool_manager.cpp`) together with the disk
state it drives: `pages` is the `pages_` frame array, `page_table` the
`page_table_` map, `free_list` the `free_list_`, `disk` the on-disk image
(`DiskManager::write_page`/`read_page`) and `alloc` the per-file next page
number (`DiskManager::fd2pageno_`, used by `allocate_page`). -/
structure BufferPool where
  pool_size : Nat
  pages : Nat → Page
  page_table : PageId → Option Nat
  free_list : List Nat
  replacer : LRUReplacer
  disk : PageId → Nat
  alloc : Int → Nat

/-- `BufferPoolManager::find_victim_page`: take the head of `free_list_`;
otherwise ask the replacer for a victim when it is non-empty. -/
def BufferPool.find_victim_page (b : BufferPool) : Option Nat × BufferPool :=
  match b.free_list with
  | f :: rest => (some f, { b with free_list := rest })
  | [] =>
    if 0 < b.replacer.Size then
      match b.replacer.victim with
      | (some f, r) => (some f, { b with replacer := r })
      | (none, r) => (none, { b with replacer := r })
    else (none, b)

/-- The state after a `fetch_page` hit on frame `fid`
(`buffer_pool_manager.cpp:71-77`): increment the pin count and pin the
frame in the replacer. -/
def BufferPool.hitState (b : BufferPool) (fid : Nat) : BufferPool :=
  { b with
      pages := fun g =>
        if g = fid then
          { b.pages fid with pin_count := (b.pages fid).pin_count + 1 }
        else b.pages g,
      replacer := b.replacer.pin fid }

/-- The state after a `fetch_page` miss resolved into victim frame `fid`
(`buffer_pool_manager.cpp:84-102`): write the old page back if dirty, drop
its page-table entry, read page `pid` from disk into the frame, map `pid`
to the frame, pin it once and pin it in the replacer. -/
def BufferPool.missState (b : BufferPool) (fid : Nat) (pid : PageId) : BufferPool :=
  { b with
      disk :=
        if (b.pages fid).is_dirty then
          fun q => if q = (b.pages fid).id then (b.pages fid).data else b.disk q
        else b.disk,
      pages := fun g =>
        if g = fid then
          { id := pid, pin_count := 1, is_dirty := false,
            data :=
              if (b.pages fid).is_dirty then
                if pid = (b.pages fid).id then (b.pages fid).data else b.disk pid
              else b.disk pid }
        else b.pages g,
      page_table := fun q =>
        if q = pid then some fid
        else if q = (b.pages fid).id then none
        else b.page_table q,
      replacer := b.replacer.pin fid }

/-- `BufferPoolManager::fetch_page`: a hit increments the pin count and
pins the frame; a miss takes a victim frame (or fails with `nullptr` when
there is none) and installs the requested page in it.  The returned frame
id stands for the returned `Page*`. -/
def BufferPool.fetch_page (b : BufferPool) (pid : PageId) :
    Option Nat × BufferPool :=
  match b.page_table pid with
  | some fid => (some fid, b.hitState fid)
  | none =>
    match b.find_victim_page with
    | (none, b1) => (none, b1)
    | (some fid, b1) => (some fid, b1.missState fid pid)

/-- The state after a successful `unpin_page` on frame `fid`
(`buffer_pool_manager.cpp:125-134`): decrement the pin count, OR in the
dirty flag, and notify the replacer exactly when the count reaches zero. -/
def BufferPool.unpinState (b : BufferPool) (fid : Nat) (d : Bool) : BufferPool :=
  { b with
      pages := fun g =>
        if g = fid then
          { b.pages fid with
              pin_count := (b.pages fid).pin_count - 1,
              is_dirty := (b.pages fid).is_dirty || d }
        else b.pages g,
      replacer :=
        if (b.pages fid).pin_count - 1 = 0 then b.replacer.unpin fid
        else b.replacer }

/-- `BufferPoolManager::unpin_page`: fail when the page is absent or its
pin count is already zero; otherwise decrement and notify the replacer
only at zero. -/
def BufferPool.unpin_page (b : BufferPool) (pid : PageId) (d : Bool) :
    Bool × BufferPool :=
  match b.page_table pid with
  | none => (false, b)
  | some fid =>
    if (b.pages fid).pin_count = 0 then (false, b)
    else (true, b.unpinState fid d)

/-- The state after `new_page` resolved into victim frame `fid`
(`buffer_pool_manager.cpp:183-192` with `update_page`, lines 42-56): bump
the file's allocation counter, write the old page back if dirty, swap the
page-table entries, reset the frame to the new page id with zeroed data,
and pin it once. -/
def BufferPool.newState (b : BufferPool) (fid : Nat) (fd : Int) : BufferPool :=
  { b with
      alloc := fun g => if g = fd then b.alloc fd + 1 else b.alloc g,
      disk :=
        if (b.pages fid).is_dirty then
          fun q => if q = (b.pages fid).id then (b.pages fid).data else b.disk q
        else b.disk,
      pages := fun g =>
        if g = fid then
          { id := ⟨fd, (b.alloc fd : Int)⟩, pin_count := 1, is_dirty := false,
            data := 0 }
        else b.pages g,
      page_table := fun q =>
        if q = (⟨fd, (b.alloc fd : Int)⟩ : PageId) then some fid
        else if q = (b.pages fid).id then none
        else b.page_table q,
      replacer := b.replacer.pin fid }

/-- `BufferPoolManager::new_page`: take a victim frame (or fail), allocate
the file's next page number (`DiskManager::allocate_page`) and install the
fresh page pinned once.  Returns the frame id and the new page number. -/
def BufferPool.new_page (b : BufferPool) (fd : Int) :
    Option (Nat × Int) × BufferPool :=
  match b.find_victim_page with
  | (none, b1) => (none, b1)
  | (some fid, b1) => (some (fid, (b1.alloc fd : Int)), b1.newState fid fd)

/-- The state after a successful `delete_page` of `pid` from frame `fid`
(`buffer_pool_manager.cpp:220-235`): write back if dirty, drop the
page-table entry, reset the frame to the invalid page id, and push the
frame on the back of `free_list_`.  The replacer is not notified. -/
def BufferPool.delState (b : BufferPool) (fid : Nat) (pid : PageId) : BufferPool :=
  { b with
      disk :=
        if (b.pages fid).is_dirty then
          fun q => if q = (b.pages fid).id then (b.pages fid).data else b.disk q
        else b.disk,
      page_table := fun q => if q = pid then none else b.page_table q,
      pages := fun g =>
        if g = fid then
          { id := ⟨-1, INVALID_PAGE_ID⟩, pin_count := 0, is_dirty := false,
            data := 0 }
        else b.pages g,
      free_list := b.free_list ++ [fid] }

/-- `BufferPoolManager::delete_page`: absent pages delete trivially; a
pinned page cannot be deleted; otherwise free the frame. -/
def BufferPool.delete_page (b : BufferPool) (pid : PageId) : Bool × BufferPool :=
  match b.page_table pid with
  | none => (true, b)
  | some fid =>
    if 0 < (b.pages fid).pin_count then (false, b)
    else (true, b.delState fid pid)

/-- The state after a successful `flush_page` of frame `fid`
(`buffer_pool_manager.cpp:158-166`): write the page back unconditionally
and clear its dirty flag. -/
def BufferPool.flushState (b : BufferPool) (fid : Nat) : BufferPool :=
  { b with
      disk := fun q => if q = (b.pages fid).id then (b.pages fid).data else b.disk q,
      pages := fun g =>
        if g = fid then { b.pages fid with is_dirty := false }
        else b.pages g }

/-- `BufferPoolManager::flush_page`: fails only when the page is absent. -/
def BufferPool.flush_page (b : BufferPool) (pid : PageId) : Bool × BufferPool :=
  match b.page_table pid with
  | none => (false, b)
  | some fid => (true, b.flushState fid)

/-- One buffer-pool call. -/
inductive BpOp where
  | fetch (pid : PageId)
  | unpin (pid : PageId) (d : Bool)
  | newp (fd : Int)
  | del (pid : PageId)
  | flush (pid : PageId)
deriving DecidableEq, Repr

/-- Call validity: `fetch_page` is only issued for pages that exist on
disk — a non-negative page number below the file's allocation counter
(`DiskManager::fd2pageno_`); the record and index layers fetch only pages
they previously allocated. -/
def BpOp.valid (b : BufferPool) : BpOp → Prop
  | .fetch pid => 0 ≤ pid.page_no ∧ pid.page_no < (b.alloc pid.fd : Int)
  | _ => True

/-- The buffer-pool state after one call. -/
def BpOp.step (op : BpOp) (b : BufferPool) : BufferPool :=
  match op with
  | .fetch pid => (b.fetch_page pid).2
  | .unpin pid d => (b.unpin_page pid d).2
  | .newp fd => (b.new_page fd).2
  | .del pid => (b.delete_page pid).2
  | .flush pid => (b.flush_page pid).2

/-- The buffer-pool invariant: replacer frames are in range and unpinned
(a pinned page is never a victim candidate); free-list frames are in
range, unpinned and hold no page; each page-table entry names an in-range
frame whose metadata points back at that valid page id; each frame holding
a valid page id is recorded in the page table; neither the replacer list
nor the free list repeats a frame; and every resident page id was
allocated (its page number is below the file's allocation counter). -/
structure BufferPool.Inv (b : BufferPool) : Prop where
  repl_ok : ∀ f ∈ b.replacer.lru_list, f < b.pool_size ∧ (b.pages f).pin_count = 0
  free_ok : ∀ f ∈ b.free_list,
    f < b.pool_size ∧ (b.pages f).pin_count = 0 ∧
      (b.pages f).id.page_no = INVALID_PAGE_ID
  table_ok : ∀ pid fid, b.page_table pid = some fid →
    fid < b.pool_size ∧ (b.pages fid).id = pid ∧ 0 ≤ pid.page_no
  self_mapped : ∀ fid, fid < b.pool_size → 0 ≤ (b.pages fid).id.page_no →
    b.page_table (b.pages fid).id = some fid
  repl_nodup : b.replacer.lru_list.Nodup
  free_nodup : b.free_list.Nodup
  alloc_fresh : ∀ pid fid, b.page_table pid = some fid →
    pid.page_no < (b.alloc pid.fd : Int)

/-- A freshly constructed one-frame pool whose file already has one page
on disk: the frame is on the free list and nothing is resident. -/
def bp0 : BufferPool :=
  { pool_size := 1,
    pages := fun _ =>
      { id := ⟨-1, INVALID_PAGE_ID⟩, pin_count := 0, is_dirty := false, data := 0 },
    page_table := fun _ => none,
    free_list := [0],
    replacer := { lru_list := [], max_size := 1 },
    disk := fun _ => 0,
    alloc := fun _ => 1 }

/-! ## Theorems -/

/-! ### List helpers -/

theorem getD_set_self {α : Type} (l : List α) (i : Nat) (a d : α)
    (h : i < l.length) : (l.set i a).getD i d = a := by
  rw [List.getD_eq_getElem _ _ (by simpa using h)]
  simp [List.getElem_set_self]

theorem getD_set_ne {α : Type} (l : List α) (i j : Nat) (a d : α)
    (h : i ≠ j) : (l.set i a).getD j d = l.getD j d := by
  simp [List.getD, List.getElem?_set_ne h]

/-! ### Bitmap search and live-slot enumeration -/

/-- Specification of the bitmap search loop, on its exact fuel `d = n - k`:
the result is `≤ n`, a hit is in `[k, n)` with value `v`, and no index below
the result in `[k, ⋯)` has value `v`. -/
theorem findFromGo_spec (v : Bool) (bm : List Bool) (n : Nat) :
    ∀ (d k : Nat), n = k + d →
      Bitmap.findFromGo v bm n d k ≤ n ∧
      (Bitmap.findFromGo v bm n d k < n →
        k ≤ Bitmap.findFromGo v bm n d k ∧
        bm.getD (Bitmap.findFromGo v bm n d k) false = v) ∧
      (∀ i, k ≤ i → i < Bitmap.findFromGo v bm n d k → bm.getD i false ≠ v) := by
  intro d
  induction d with
  | zero =>
    intro k hk
    have h0 : Bitmap.findFromGo v bm n 0 k = n := rfl
    rw [h0]
    exact ⟨Nat.le_refl n, fun h => absurd h (lt_irrefl n),
      fun i hki hi => by omega⟩
  | succ d ih =>
    intro k hk
    have hstep : Bitmap.findFromGo v bm n (d + 1) k =
        if bm.getD k false = v then k else Bitmap.findFromGo v bm n d (k + 1) := rfl
    by_cases hbit : bm.getD k false = v
    · rw [hstep, if_pos hbit]
      exact ⟨by omega, fun _ => ⟨Nat.le_refl k, hbit⟩, fun i hki hi => by omega⟩
    · rw [hstep, if_neg hbit]
      obtain ⟨h1, h2, h3⟩ := ih (k + 1) (by omega)
      refine ⟨h1, fun hlt => ⟨by have := (h2 hlt).1; omega, (h2 hlt).2⟩, ?_⟩
      intro i hki hi
      rcases Nat.eq_or_lt_of_le hki with hik | hik
      · rw [← hik]
        exact hbit
      · exact h3 i hik hi

/-- Specification of `Bitmap.findFrom`: result `≤ n`, a hit is the least index
in `[k, n)` carrying `v`. -/
theorem findFrom_spec (v : Bool) (bm : List Bool) (n k : Nat) :
    Bitmap.findFrom v bm n k ≤ n ∧
    (Bitmap.findFrom v bm n k < n →
      k ≤ Bitmap.findFrom v bm n k ∧
      bm.getD (Bitmap.findFrom v bm n k) false = v) ∧
    (∀ i, k ≤ i → i < Bitmap.findFrom v bm n k → bm.getD i false ≠ v) := by
  by_cases hk : k ≤ n
  · exact findFromGo_spec v bm n (n - k) k (by omega)
  · unfold Bitmap.findFrom
    have h0 : n - k = 0 := by omega
    rw [h0]
    have hff : Bitmap.findFromGo v bm n 0 k = n := rfl
    rw [hff]
    exact ⟨Nat.le_refl n, fun h => absurd h (lt_irrefl n),
      fun i hki hi => by omega⟩

/-- Unfolding `liveList` one hit at a time: the head is the first set bit at
or after `k`, the tail restarts just above it. -/
theorem liveList_head (bm : List Bool) (n : Nat) :
    ∀ (d k : Nat), n = k + d →
      liveListGo bm n d k =
        (if Bitmap.findFromGo true bm n d k < n
         then Bitmap.findFromGo true bm n d k ::
           liveList bm n (Bitmap.findFromGo true bm n d k + 1)
         else []) := by
  intro d
  induction d with
  | zero =>
    intro k hk
    have h0 : Bitmap.findFromGo true bm n 0 k = n := rfl
    have h1 : liveListGo bm n 0 k = [] := rfl
    rw [h0, h1, if_neg (lt_irrefl n)]
  | succ d ih =>
    intro k hk
    have hstepF : Bitmap.findFromGo true bm n (d + 1) k =
        if bm.getD k false = true then k
        else Bitmap.findFromGo true bm n d (k + 1) := rfl
    have hstepL : liveListGo bm n (d + 1) k =
        if bm.getD k false then k :: liveListGo bm n d (k + 1)
        else liveListGo bm n d (k + 1) := rfl
    by_cases hbit : bm.getD k false = true
    · rw [hstepF, if_pos hbit, hstepL, if_pos hbit, if_pos (show k < n by omega)]
      have hlive : liveList bm n (k + 1) = liveListGo bm n d (k + 1) := by
        unfold liveList
        rw [show n - (k + 1) = d by omega]
      rw [hlive]
    · rw [hstepF, if_neg hbit, hstepL, if_neg (by simpa using hbit)]
      exact ih (k + 1) (by omega)

/-- Membership in the live-slot loop: exactly the set bits of `[k, k + d)`. -/
theorem liveListGo_mem (bm : List Bool) (n : Nat) :
    ∀ (d k i : Nat),
      (i ∈ liveListGo bm n d k ↔
        (k ≤ i ∧ i < k + d ∧ bm.getD i false = true)) := by
  intro d
  induction d with
  | zero =>
    intro k i
    have h1 : liveListGo bm n 0 k = [] := rfl
    rw [h1]
    simp
    omega
  | succ d ih =>
    intro k i
    have hstepL : liveListGo bm n (d + 1) k =
        if bm.getD k false then k :: liveListGo bm n d (k + 1)
        else liveListGo bm n d (k + 1) := rfl
    by_cases hbit : bm.getD k false = true
    · rw [hstepL, if_pos hbit]
      rw [List.mem_cons, ih (k + 1) i]
      constructor
      · rintro (rfl | ⟨h1, h2, h3⟩)
        · exact ⟨Nat.le_refl _, by omega, hbit⟩
        · exact ⟨by omega, by omega, h3⟩
      · rintro ⟨h1, h2, h3⟩
        rcases Nat.eq_or_lt_of_le h1 with rfl | hlt
        · exact Or.inl rfl
        · exact Or.inr ⟨hlt, by omega, h3⟩
    · rw [hstepL, if_neg (by simpa using hbit), ih (k + 1) i]
      constructor
      · rintro ⟨h1, h2, h3⟩
        exact ⟨by omega, by omega, h3⟩
      · rintro ⟨h1, h2, h3⟩
        rcases Nat.eq_or_lt_of_le h1 with rfl | hlt
        · exact absurd h3 hbit
        · exact ⟨hlt, by omega, h3⟩

/-- Membership in `liveList`: exactly the set bits of `[k, n)`. -/
theorem liveList_mem (bm : List Bool) (n k i : Nat) :
    i ∈ liveList bm n k ↔ (k ≤ i ∧ i < n ∧ bm.getD i false = true) := by
  unfold liveList
  rw [liveListGo_mem bm n (n - k) k i]
  constructor
  · rintro ⟨h1, h2, h3⟩
    exact ⟨h1, by omega, h3⟩
  · rintro ⟨h1, h2, h3⟩
    exact ⟨h1, by omega, h3⟩

/-- The live-slot list is strictly ascending. -/
theorem liveListGo_pairwise (bm : List Bool) (n : Nat) :
    ∀ (d k : Nat), List.Pairwise (· < ·) (liveListGo bm n d k) := by
  intro d
  induction d with
  | zero =>
    intro k
    have h1 : liveListGo bm n 0 k = [] := rfl
    rw [h1]
    exact List.Pairwise.nil
  | succ d ih =>
    intro k
    have hstepL : liveListGo bm n (d + 1) k =
        if bm.getD k false then k :: liveListGo bm n d (k + 1)
        else liveListGo bm n d (k + 1) := rfl
    by_cases hbit : bm.getD k false = true
    · rw [hstepL, if_pos hbit]
      refine List.Pairwise.cons ?_ (ih (k + 1))
      intro b hb
      have := (liveListGo_mem bm n d (k + 1) b).mp hb
      omega
    · rw [hstepL, if_neg (by simpa using hbit)]
      exact ih (k + 1)

/-- `liveList_head` at the wrapper level. -/
theorem liveList_head2 (bm : List Bool) (n k : Nat) :
    liveList bm n k =
      (if Bitmap.findFrom true bm n k < n
       then Bitmap.findFrom true bm n k :: liveList bm n (Bitmap.findFrom true bm n k + 1)
       else []) := by
  by_cases hk : k ≤ n
  · unfold liveList Bitmap.findFrom
    exact liveList_head bm n (n - k) k (by omega)
  · unfold liveList Bitmap.findFrom
    rw [show n - k = 0 by omega]
    have h0 : Bitmap.findFromGo true bm n 0 k = n := rfl
    have h1 : liveListGo bm n 0 k = [] := rfl
    rw [h0, h1, if_neg (lt_irrefl n)]

/-- One unfolding of the live-rid page loop. -/
theorem liveFromGo_succ (f : RmFile) (d p : Nat) :
    f.liveFromGo (d + 1) p =
      (liveList (f.page p).bitmap f.hdr.num_records_per_page 0).map
        (fun i => ⟨(p : Int), (i : Int)⟩) ++ f.liveFromGo d (p + 1) := rfl

/-- `liveFrom` unfolds to the loop on its exact fuel. -/
theorem liveFrom_go (f : RmFile) (p : Nat) :
    f.liveFrom p = f.liveFromGo (f.hdr.num_pages - p) p := rfl

/-- `liveFrom p` is `liveAfter p (-1)`. -/
theorem liveFrom_eq_liveAfter (f : RmFile) (q : Nat) :
    f.liveFrom q = f.liveAfter q (-1) := by
  unfold RmFile.liveAfter
  by_cases hq : q < f.hdr.num_pages
  · rw [if_pos hq, show ((-1 : Int) + 1).toNat = 0 from rfl]
    rw [liveFrom_go, show f.hdr.num_pages - q = (f.hdr.num_pages - (q + 1)) + 1 by omega,
      liveFromGo_succ]
    rw [liveFrom_go]
  · rw [if_neg hq, liveFrom_go, show f.hdr.num_pages - q = 0 by omega]
    rfl

/-- Membership in the live-rid loop. -/
theorem liveFromGo_mem (f : RmFile) :
    ∀ (d p : Nat) (r : Rid),
      (r ∈ f.liveFromGo d p ↔
        ∃ (q i : Nat), p ≤ q ∧ q < p + d ∧
          i < f.hdr.num_records_per_page ∧
          (f.page q).bitmap.getD i false = true ∧
          r = ⟨(q : Int), (i : Int)⟩) := by
  intro d
  induction d with
  | zero =>
    intro p r
    constructor
    · intro h
      exact absurd h (List.not_mem_nil r)
    · rintro ⟨q, i, h1, h2, _⟩
      omega
  | succ d ih =>
    intro p r
    rw [liveFromGo_succ, List.mem_append, List.mem_map, ih (p + 1) r]
    constructor
    · rintro (⟨i, hi, rfl⟩ | ⟨q, i, h1, h2, h3, h4, h5⟩)
      · obtain ⟨hk, hn, hbit⟩ := (liveList_mem _ _ _ _).mp hi
        exact ⟨p, i, Nat.le_refl p, by omega, hn, hbit, rfl⟩
      · exact ⟨q, i, by omega, by omega, h3, h4, h5⟩
    · rintro ⟨q, i, h1, h2, h3, h4, h5⟩
      rcases Nat.eq_or_lt_of_le h1 with rfl | hlt
      · exact Or.inl ⟨i, (liveList_mem _ _ _ _).mpr ⟨Nat.zero_le i, h3, h4⟩, h5.symm⟩
      · exact Or.inr ⟨q, i, hlt, by omega, h3, h4, h5⟩

/-- The live-rid loop is strictly ascending in scan order. -/
theorem liveFromGo_pairwise (f : RmFile) :
    ∀ (d p : Nat), List.Pairwise ridLt (f.liveFromGo d p) := by
  intro d
  induction d with
  | zero =>
    intro p
    exact List.Pairwise.nil
  | succ d ih =>
    intro p
    rw [liveFromGo_succ]
    rw [List.pairwise_append]
    refine ⟨?_, ih (p + 1), ?_⟩
    · rw [List.pairwise_map]
      refine List.Pairwise.imp ?_ (liveListGo_pairwise _ _ _ _)
      intro a b hab
      exact Or.inr ⟨rfl, Int.ofNat_lt.mpr hab⟩
    · rintro a ha b hb
      obtain ⟨i, hi, rfl⟩ := List.mem_map.mp ha
      obtain ⟨q, j, h1, h2, h3, h4, h5⟩ := (liveFromGo_mem f d (p + 1) b).mp hb
      subst h5
      exact Or.inl (Int.ofNat_lt.mpr (Nat.lt_of_succ_le h1))

/-! ### The scan loop computes successive heads of the live-rid list -/

/-- One unfolding of the scan loop. -/
theorem nextLoopGo_succ (f : RmFile) (d : Nat) (p s : Int) :
    RmScan.nextLoopGo f (d + 1) p s =
      (if ((Bitmap.next_bit true (f.page p.toNat).bitmap
              f.hdr.num_records_per_page s : Nat) : Int) <
          (f.hdr.num_records_per_page : Int)
       then ⟨p, ((Bitmap.next_bit true (f.page p.toNat).bitmap
              f.hdr.num_records_per_page s : Nat) : Int)⟩
       else RmScan.nextLoopGo f d (p + 1) (-1)) := rfl

/-- The scan loop on its exact fuel: from cursor `(q, s)` it lands on the head
of `liveAfter q s`, or terminates with `page_no = RM_NO_PAGE` when no live rid
remains; the tail of `liveAfter q s` is `liveAfter` of the new cursor. -/
theorem nextLoopGo_liveAfter (f : RmFile) :
    ∀ (d q : Nat) (s : Int), f.hdr.num_pages = q + d →
      (f.liveAfter q s = [] →
        (RmScan.nextLoopGo f d (q : Int) s).page_no = RM_NO_PAGE) ∧
      (∀ (r : Rid) (rest : List Rid), f.liveAfter q s = r :: rest →
        RmScan.nextLoopGo f d (q : Int) s = r ∧
        ∃ (qq jj : Nat), r = ⟨(qq : Int), (jj : Int)⟩ ∧ qq < f.hdr.num_pages ∧
          rest = f.liveAfter qq (jj : Int)) := by
  intro d
  induction d with
  | zero =>
    intro q s hNq
    have hLA : f.liveAfter q s = [] := by
      unfold RmFile.liveAfter
      rw [if_neg (by omega)]
    refine ⟨fun _ => rfl, fun r rest h => ?_⟩
    rw [hLA] at h
    exact List.noConfusion h
  | succ d ih =>
    intro q s hNq
    have hq : q < f.hdr.num_pages := by omega
    have hqq : ((q : Int)).toNat = q := Int.toNat_natCast q
    have hLA : f.liveAfter q s =
        (liveList (f.page q).bitmap f.hdr.num_records_per_page (s + 1).toNat).map
          (fun i => ⟨(q : Int), (i : Int)⟩) ++ f.liveFrom (q + 1) := by
      unfold RmFile.liveAfter
      rw [if_pos hq]
    have hjdef : Bitmap.next_bit true (f.page q).bitmap
        f.hdr.num_records_per_page s =
        Bitmap.findFrom true (f.page q).bitmap
          f.hdr.num_records_per_page (s + 1).toNat := rfl
    rw [nextLoopGo_succ, hqq]
    by_cases hjn : Bitmap.next_bit true (f.page q).bitmap
        f.hdr.num_records_per_page s < f.hdr.num_records_per_page
    · rw [if_pos (Int.ofNat_lt.mpr hjn)]
      have hhead := liveList_head2 (f.page q).bitmap
        f.hdr.num_records_per_page (s + 1).toNat
      rw [← hjdef, if_pos hjn] at hhead
      rw [hhead] at hLA
      simp only [List.map_cons, List.cons_append] at hLA
      constructor
      · intro hnil
        rw [hnil] at hLA
        exact List.noConfusion hLA
      · intro r rest hcons
        rw [hcons] at hLA
        obtain ⟨hr, hrest⟩ := List.cons.inj hLA
        refine ⟨hr.symm, q,
          Bitmap.next_bit true (f.page q).bitmap f.hdr.num_records_per_page s,
          hr, hq, ?_⟩
        rw [hrest]
        unfold RmFile.liveAfter
        rw [if_pos hq]
        have hcast2 : (((Bitmap.next_bit true (f.page q).bitmap
            f.hdr.num_records_per_page s : Nat) : Int) + 1).toNat =
            Bitmap.next_bit true (f.page q).bitmap
              f.hdr.num_records_per_page s + 1 := by omega
        rw [hcast2]
    · rw [if_neg (fun hc => hjn (Int.ofNat_lt.mp hc))]
      have hhead := liveList_head2 (f.page q).bitmap
        f.hdr.num_records_per_page (s + 1).toNat
      rw [← hjdef, if_neg hjn] at hhead
      rw [hhead] at hLA
      simp only [List.map_nil, List.nil_append] at hLA
      rw [liveFrom_eq_liveAfter] at hLA
      have hcast : (q : Int) + 1 = ((q + 1 : Nat) : Int) := by omega
      rw [hcast]
      obtain ⟨ihA, ihB⟩ := ih (q + 1) (-1) (by omega)
      constructor
      · intro hnil
        exact ihA (by rw [← hLA, hnil])
      · intro r rest hcons
        exact ihB r rest (by rw [← hLA, hcons])

/-- `nextLoopGo_liveAfter`, phrased for `RmScan.nextLoop`. -/
theorem nextLoop_liveAfter (f : RmFile) (q : Nat) (s : Int) :
    (f.liveAfter q s = [] →
      (RmScan.nextLoop f (q : Int) s).page_no = RM_NO_PAGE) ∧
    (∀ (r : Rid) (rest : List Rid), f.liveAfter q s = r :: rest →
      RmScan.nextLoop f (q : Int) s = r ∧
      ∃ (qq jj : Nat), r = ⟨(qq : Int), (jj : Int)⟩ ∧ qq < f.hdr.num_pages ∧
        rest = f.liveAfter qq (jj : Int)) := by
  unfold RmScan.nextLoop
  by_cases hq : q ≤ f.hdr.num_pages
  · rw [show ((f.hdr.num_pages : Int) - (q : Int)).toNat = f.hdr.num_pages - q
      by omega]
    exact nextLoopGo_liveAfter f (f.hdr.num_pages - q) q s (by omega)
  · rw [show ((f.hdr.num_pages : Int) - (q : Int)).toNat = 0 by omega]
    have hLA : f.liveAfter q s = [] := by
      unfold RmFile.liveAfter
      rw [if_neg (by omega)]
    refine ⟨fun _ => rfl, fun r rest h => ?_⟩
    rw [hLA] at h
    exact List.noConfusion h

/-- One unfolding of the visited-rid trace. -/
theorem traceAux_succ (f : RmFile) (fuel : Nat) (r : Rid) :
    RmScan.traceAux f (fuel + 1) r =
      (if RmScan.is_end r then []
       else r :: RmScan.traceAux f fuel (RmScan.nextLoop f r.page_no r.slot_no)) := rfl

/-- With enough fuel, the visited-rid trace from cursor `(q, s)` is exactly
`liveAfter q s`. -/
theorem traceAux_eq_liveAfter (f : RmFile) :
    ∀ (fuel q : Nat) (s : Int),
      (f.liveAfter q s).length ≤ fuel →
      RmScan.traceAux f fuel (RmScan.nextLoop f (q : Int) s) = f.liveAfter q s := by
  intro fuel
  induction fuel with
  | zero =>
    intro q s hlen
    have hnil : f.liveAfter q s = [] := by
      cases h : f.liveAfter q s with
      | nil => rfl
      | cons a l =>
        rw [h] at hlen
        simp at hlen
    rw [hnil]
    rfl
  | succ fuel ih =>
    intro q s hlen
    cases hLA : f.liveAfter q s with
    | nil =>
      have hend := (nextLoop_liveAfter f q s).1 hLA
      rw [traceAux_succ, if_pos (by simp [RmScan.is_end, hend, RM_NO_PAGE])]
    | cons r rest =>
      obtain ⟨hstep, qq, jj, hr, hqq, hrest⟩ :=
        (nextLoop_liveAfter f q s).2 r rest hLA
      rw [hstep, traceAux_succ]
      have hne : RmScan.is_end r = false := by
        rw [hr]
        simp only [RmScan.is_end, RM_NO_PAGE, beq_eq_false_iff_ne, ne_eq]
        omega
      rw [if_neg (by rw [hne]; exact Bool.false_ne_true)]
      rw [hr]
      have hlen2 : (f.liveAfter qq (jj : Int)).length ≤ fuel := by
        rw [hLA] at hlen
        rw [← hrest]
        simpa using Nat.le_of_succ_le_succ hlen
      rw [ih qq (jj : Int) hlen2, ← hrest, ← hr]
  

/-- One unfolding of the final-cursor iteration. -/
theorem finalAux_succ (f : RmFile) (fuel : Nat) (r : Rid) :
    RmScan.finalAux f (fuel + 1) r =
      (if RmScan.is_end r then r
       else RmScan.finalAux f fuel (RmScan.nextLoop f r.page_no r.slot_no)) := rfl

/-- With enough fuel, the cursor after a full scan from `(q, s)` has
`page_no = RM_NO_PAGE`. -/
theorem finalAux_end (f : RmFile) :
    ∀ (fuel q : Nat) (s : Int),
      (f.liveAfter q s).length ≤ fuel →
      (RmScan.finalAux f fuel (RmScan.nextLoop f (q : Int) s)).page_no =
        RM_NO_PAGE := by
  intro fuel
  induction fuel with
  | zero =>
    intro q s hlen
    have hnil : f.liveAfter q s = [] := by
      cases h : f.liveAfter q s with
      | nil => rfl
      | cons a l =>
        rw [h] at hlen
        simp at hlen
    exact (nextLoop_liveAfter f q s).1 hnil
  | succ fuel ih =>
    intro q s hlen
    cases hLA : f.liveAfter q s with
    | nil =>
      have hend := (nextLoop_liveAfter f q s).1 hLA
      rw [finalAux_succ, if_pos (by simp [RmScan.is_end, hend, RM_NO_PAGE])]
      exact hend
    | cons r rest =>
      obtain ⟨hstep, qq, jj, hr, hqq, hrest⟩ :=
        (nextLoop_liveAfter f q s).2 r rest hLA
      rw [hstep, finalAux_succ]
      have hne : RmScan.is_end r = false := by
        rw [hr]
        simp only [RmScan.is_end, RM_NO_PAGE, beq_eq_false_iff_ne, ne_eq]
        omega
      rw [if_neg (by rw [hne]; exact Bool.false_ne_true)]
      rw [hr]
      have hlen2 : (f.liveAfter qq (jj : Int)).length ≤ fuel := by
        rw [hLA] at hlen
        rw [← hrest]
        simpa using Nat.le_of_succ_le_succ hlen
      exact ih qq (jj : Int) hlen2

/-! ### Length bounds giving sufficient scan fuel -/

/-- The live-slot loop yields at most `d` indices. -/
theorem liveListGo_length (bm : List Bool) (n : Nat) :
    ∀ (d k : Nat), (liveListGo bm n d k).length ≤ d := by
  intro d
  induction d with
  | zero =>
    intro k
    exact Nat.le_refl 0
  | succ d ih =>
    intro k
    have hstepL : liveListGo bm n (d + 1) k =
        if bm.getD k false then k :: liveListGo bm n d (k + 1)
        else liveListGo bm n d (k + 1) := rfl
    rw [hstepL]
    by_cases hbit : bm.getD k false = true
    · rw [if_pos hbit]
      simpa using Nat.succ_le_succ (ih (k + 1))
    · rw [if_neg (by simpa using hbit)]
      exact Nat.le_succ_of_le (ih (k + 1))

/-- At most `n` live slots per page. -/
theorem liveList_length (bm : List Bool) (n k : Nat) :
    (liveList bm n k).length ≤ n :=
  Nat.le_trans (liveListGo_length bm n (n - k) k) (Nat.sub_le n k)

/-- At most `d * n` live rids on `d` pages. -/
theorem liveFromGo_length (f : RmFile) :
    ∀ (d p : Nat),
      (f.liveFromGo d p).length ≤ d * f.hdr.num_records_per_page := by
  intro d
  induction d with
  | zero =>
    intro p
    have h0 : f.liveFromGo 0 p = [] := rfl
    rw [h0]
    exact Nat.zero_le _
  | succ d ih =>
    intro p
    rw [liveFromGo_succ, List.length_append, List.length_map]
    calc (liveList (f.page p).bitmap f.hdr.num_records_per_page 0).length +
        (f.liveFromGo d (p + 1)).length
        ≤ f.hdr.num_records_per_page + d * f.hdr.num_records_per_page :=
          Nat.add_le_add (liveList_length _ _ _) (ih (p + 1))
      _ = (d + 1) * f.hdr.num_records_per_page := by ring

/-- `liveAfter` never exceeds `num_pages * num_records_per_page` rids. -/
theorem liveAfter_length (f : RmFile) (q : Nat) (s : Int) :
    (f.liveAfter q s).length ≤
      f.hdr.num_pages * f.hdr.num_records_per_page := by
  unfold RmFile.liveAfter
  by_cases hq : q < f.hdr.num_pages
  · rw [if_pos hq, List.length_append, List.length_map, liveFrom_go]
    calc (liveList (f.page q).bitmap f.hdr.num_records_per_page
          (s + 1).toNat).length +
        (f.liveFromGo (f.hdr.num_pages - (q + 1)) (q + 1)).length
        ≤ f.hdr.num_records_per_page +
          (f.hdr.num_pages - (q + 1)) * f.hdr.num_records_per_page :=
          Nat.add_le_add (liveList_length _ _ _) (liveFromGo_length f _ _)
      _ = ((f.hdr.num_pages - (q + 1)) + 1) * f.hdr.num_records_per_page := by
          ring
      _ ≤ f.hdr.num_pages * f.hdr.num_records_per_page :=
          Nat.mul_le_mul_right _ (by omega)
  · rw [if_neg hq]
    exact Nat.zero_le _

/-- `ridLt` is irreflexive-producing: strictly smaller rids differ. -/
theorem ridLt_ne (a b : Rid) (h : ridLt a b) : a ≠ b := by
  intro hab
  rw [hab] at h
  rcases h with h | ⟨_, h⟩
  · exact lt_irrefl _ h
  · exact lt_irrefl _ h

/-! ### C6: the full forward scan -/

/-- The live-rid enumeration contains exactly the live rids. -/
theorem liveRids_mem (f : RmFile) (r : Rid) :
    r ∈ f.liveRids ↔ f.isLiveRid r := by
  unfold RmFile.liveRids
  rw [liveFrom_go, liveFromGo_mem f (f.hdr.num_pages - 1) 1 r]
  unfold RmFile.isLiveRid
  constructor
  · rintro ⟨q, i, h1, h2, h3, h4, rfl⟩
    have hq1 : ((q : Int)).toNat = q := Int.toNat_natCast q
    have hi1 : ((i : Int)).toNat = i := Int.toNat_natCast i
    refine ⟨?_, ?_, ?_, ?_, ?_⟩
    · show (1 : Int) ≤ (q : Int)
      exact_mod_cast h1
    · show ((q : Int)) < (f.hdr.num_pages : Int)
      have hq2 : q < f.hdr.num_pages := by omega
      exact_mod_cast hq2
    · show (0 : Int) ≤ (i : Int)
      positivity
    · show ((i : Int)) < (f.hdr.num_records_per_page : Int)
      exact_mod_cast h3
    · show (f.page ((q : Int)).toNat).bitmap.getD ((i : Int)).toNat false = true
      rw [hq1, hi1]
      exact h4
  · rintro ⟨h1, h2, h3, h4, h5⟩
    refine ⟨r.page_no.toNat, r.slot_no.toNat, by omega, by omega, by omega,
      h5, ?_⟩
    have hp : ((r.page_no.toNat : Nat) : Int) = r.page_no :=
      Int.toNat_of_nonneg (by omega)
    have hs : ((r.slot_no.toNat : Nat) : Int) = r.slot_no :=
      Int.toNat_of_nonneg (by omega)
    cases r
    simp only at hp hs
    rw [hp, hs]



/-- C6: the full forward scan visits exactly the live rids of the file, in
ascending `(page_no, slot_no)` order starting from page
`RM_FIRST_RECORD_PAGE`, each exactly once and no dead slot; afterwards the
cursor's `page_no` is `RM_NO_PAGE` and `is_end()` is true. -/
theorem C6_full_scan_visits_live_rids (f : RmFile) :
    RmScan.trace f = f.liveRids ∧
    (∀ r : Rid, r ∈ RmScan.trace f ↔ f.isLiveRid r) ∧
    List.Pairwise ridLt (RmScan.trace f) ∧
    (RmScan.trace f).Nodup ∧
    (RmScan.final f).page_no = RM_NO_PAGE ∧
    RmScan.is_end (RmScan.final f) = true := by
  have hfuel : (f.liveAfter 1 (-1)).length ≤
      f.hdr.num_pages * f.hdr.num_records_per_page + 1 :=
    Nat.le_succ_of_le (liveAfter_length f 1 (-1))
  have hcast : (RM_FIRST_RECORD_PAGE : Int) = ((1 : Nat) : Int) := rfl
  have htr : RmScan.trace f = f.liveRids := by
    unfold RmScan.trace RmScan.start RmFile.liveRids
    rw [hcast, traceAux_eq_liveAfter f _ 1 (-1) hfuel]
    exact (liveFrom_eq_liveAfter f 1).symm
  have hmem : ∀ r : Rid, r ∈ RmScan.trace f ↔ f.isLiveRid r := by
    intro r
    rw [htr]
    exact liveRids_mem f r
  have hpw : List.Pairwise ridLt (RmScan.trace f) := by
    rw [htr]
    unfold RmFile.liveRids
    rw [liveFrom_go]
    exact liveFromGo_pairwise f _ _
  have hfin : (RmScan.final f).page_no = RM_NO_PAGE := by
    unfold RmScan.final RmScan.start
    rw [hcast]
    exact finalAux_end f _ 1 (-1) hfuel
  refine ⟨htr, hmem, hpw, List.Pairwise.imp ?_ hpw, hfin, ?_⟩
  · intro a b hab
    exact ridLt_ne a b hab
  · unfold RmScan.is_end
    rw [hfin]
    rfl

/-! ### C8: delete then get fails with RecordNotFound -/

/-- A set bit is a true `getD` read. -/
theorem is_set_getD (bm : List Bool) (s : Int)
    (h : Bitmap.is_set bm s = true) : bm.getD s.toNat false = true := by
  unfold Bitmap.is_set at h
  exact ((Bool.and_eq_true _ _).mp h).2

/-- A live slot bit forces the slot index and the page index into range. -/
theorem live_bit_lengths (f : RmFile) (rid : Rid)
    (hlive : Bitmap.is_set (f.page rid.page_no.toNat).bitmap rid.slot_no = true) :
    rid.slot_no.toNat < (f.page rid.page_no.toNat).bitmap.length ∧
      rid.page_no.toNat < f.pages.length := by
  have hget := is_set_getD _ _ hlive
  have hslen : rid.slot_no.toNat < (f.page rid.page_no.toNat).bitmap.length := by
    by_contra hc
    rw [List.getD_eq_default _ _ (by omega)] at hget
    exact Bool.false_ne_true hget
  refine ⟨hslen, ?_⟩
  by_contra hc
  have hdef : f.page rid.page_no.toNat = default := by
    unfold RmFile.page
    exact List.getD_eq_default _ _ (by omega)
  rw [hdef] at hslen
  simp [default] at hslen

/-- Clearing a bit clears it. -/
theorem is_set_reset_self (bm : List Bool) (s : Int) :
    Bitmap.is_set (Bitmap.reset bm s) s = false := by
  have h : (bm.set s.toNat false).getD s.toNat false = false := by
    by_cases hb : s.toNat < bm.length
    · exact getD_set_self _ _ _ _ hb
    · exact List.getD_eq_default _ _ (by simpa using Nat.le_of_not_lt hb)
  simp only [Bitmap.is_set, Bitmap.reset, h, Bool.and_false]

/-- Shape of a successful `delete_record`: the slot bit is cleared,
`num_records` is decremented, and only the free-chain fields can differ
beyond that. -/
theorem delete_record_shape (f : RmFile) (rid : Rid)
    (hp0 : 0 ≤ rid.page_no) (hpN : rid.page_no < (f.hdr.num_pages : Int))
    (hlive : Bitmap.is_set (f.page rid.page_no.toNat).bitmap rid.slot_no = true) :
    ∃ ffp nfp : Int,
      RmFileHandle.delete_record f rid =
        (.ok ⟨{ f.hdr with first_free_page_no := ffp },
          f.pages.set rid.page_no.toNat
            { hdr := ⟨nfp, (f.page rid.page_no.toNat).hdr.num_records - 1⟩,
              bitmap := Bitmap.reset (f.page rid.page_no.toNat).bitmap rid.slot_no,
              slots := (f.page rid.page_no.toNat).slots }⟩,
         [.fetchEv rid.page_no, .unpinEv rid.page_no true]) := by
  have hnb : ¬ (rid.page_no < 0 ∨ (f.hdr.num_pages : Int) ≤ rid.page_no) := by
    omega
  unfold RmFileHandle.delete_record
  rw [if_neg hnb, if_pos hlive]
  by_cases hfull : (f.page rid.page_no.toNat).hdr.num_records - 1 =
      (f.hdr.num_records_per_page : Int) - 1
  · exact ⟨rid.page_no, f.hdr.first_free_page_no, by simp [hfull]⟩
  · refine ⟨f.hdr.first_free_page_no,
      (f.page rid.page_no.toNat).hdr.next_free_page_no, by simp [hfull, RmFile.setPage]⟩

/-- C8: for every rid whose slot is live, `delete_record(rid)` succeeds, an
immediately following `get_record(rid)` fails with `RecordNotFound`, the
deleted slot's bit is clear, and the page's `num_records` has decreased by
one. -/
theorem C8_delete_then_get (f : RmFile) (rid : Rid)
    (hp0 : 0 ≤ rid.page_no) (hpN : rid.page_no < (f.hdr.num_pages : Int))
    (hlive : Bitmap.is_set (f.page rid.page_no.toNat).bitmap rid.slot_no = true) :
    ∃ f1 : RmFile,
      (RmFileHandle.delete_record f rid).1 = .ok f1 ∧
      (RmFileHandle.get_record f1 rid).1 =
        .error (.recordNotFound rid.page_no rid.slot_no) ∧
      Bitmap.is_set (f1.page rid.page_no.toNat).bitmap rid.slot_no = false ∧
      (f1.page rid.page_no.toNat).hdr.num_records =
        (f.page rid.page_no.toNat).hdr.num_records - 1 := by
  obtain ⟨hslen, hplen⟩ := live_bit_lengths f rid hlive
  obtain ⟨ffp, nfp, hdel⟩ := delete_record_shape f rid hp0 hpN hlive
  set P : RmPage :=
    { hdr := ⟨nfp, (f.page rid.page_no.toNat).hdr.num_records - 1⟩,
      bitmap := Bitmap.reset (f.page rid.page_no.toNat).bitmap rid.slot_no,
      slots := (f.page rid.page_no.toNat).slots } with hP
  set f1 : RmFile := ⟨{ f.hdr with first_free_page_no := ffp },
    f.pages.set rid.page_no.toNat P⟩ with hf1
  have hpg : f1.page rid.page_no.toNat = P := by
    unfold RmFile.page
    exact getD_set_self _ _ _ _ hplen
  have hnb1 : ¬ (rid.page_no < 0 ∨ (f1.hdr.num_pages : Int) ≤ rid.page_no) := by
    have he : f1.hdr.num_pages = f.hdr.num_pages := rfl
    rw [he]
    omega
  refine ⟨f1, by rw [hdel], ?_, ?_, ?_⟩
  · simp only [RmFileHandle.get_record, if_neg hnb1, hpg, hP,
      is_set_reset_self, Bool.false_eq_true, if_false]
  · rw [hpg, hP]
    exact is_set_reset_self _ _
  · rw [hpg]

/-! ### C9: errors on a clear slot leave the page pinned -/

/-- C9: for every in-range rid whose slot bit is clear, `get_record`,
`update_record` and `delete_record` throw `RecordNotFound` after having
fetched (pinned) the page, and their call log contains that one fetch and no
unpin — so the page's pin count is left one higher than before the call. -/
theorem C9_clear_slot_error_leaks_pin (f : RmFile) (rid : Rid) (buf : List Nat)
    (hp0 : 0 ≤ rid.page_no) (hpN : rid.page_no < (f.hdr.num_pages : Int))
    (hclear : Bitmap.is_set (f.page rid.page_no.toNat).bitmap rid.slot_no = false) :
    RmFileHandle.get_record f rid =
      (.error (.recordNotFound rid.page_no rid.slot_no), [.fetchEv rid.page_no]) ∧
    RmFileHandle.update_record f rid buf =
      (.error (.recordNotFound rid.page_no rid.slot_no), [.fetchEv rid.page_no]) ∧
    RmFileHandle.delete_record f rid =
      (.error (.recordNotFound rid.page_no rid.slot_no), [.fetchEv rid.page_no]) ∧
    netPinDelta [.fetchEv rid.page_no] rid.page_no = 1 ∧
    ([RmEvent.fetchEv rid.page_no].filter RmEvent.isUnpin).length = 0 := by
  have hnb : ¬ (rid.page_no < 0 ∨ (f.hdr.num_pages : Int) ≤ rid.page_no) := by
    omega
  refine ⟨?_, ?_, ?_, ?_, ?_⟩
  · simp only [RmFileHandle.get_record, if_neg hnb, hclear,
      Bool.false_eq_true, if_false]
  · simp only [RmFileHandle.update_record, if_neg hnb, hclear,
      Bool.false_eq_true, if_false]
  · simp only [RmFileHandle.delete_record, if_neg hnb, hclear,
      Bool.false_eq_true, if_false]
  · simp [netPinDelta, RmEvent.pinsPage, RmEvent.unpinsPage]
  · simp [RmEvent.isUnpin]

/-- C9 witness: the theorem applied to the dead slot `(1,1)` of the concrete
one-record file. -/
theorem C9_witness :
    0 ≤ (Rid.mk 1 1).page_no ∧
    (Rid.mk 1 1).page_no < ((exampleFile.hdr.num_pages : Nat) : Int) ∧
    Bitmap.is_set (exampleFile.page (Rid.mk 1 1).page_no.toNat).bitmap
      (Rid.mk 1 1).slot_no = false ∧
    RmFileHandle.get_record exampleFile ⟨1, 1⟩ =
      (.error (.recordNotFound 1 1), [.fetchEv 1]) ∧
    netPinDelta [.fetchEv 1] 1 = 1 :=
  ⟨by decide, by decide, by decide,
    (C9_clear_slot_error_leaks_pin exampleFile ⟨1, 1⟩ [9]
      (by decide) (by decide) (by decide)).1,
    (C9_clear_slot_error_leaks_pin exampleFile ⟨1, 1⟩ [9]
      (by decide) (by decide) (by decide)).2.2.2.1⟩

/-! ### C1: the scan never unpins the pages it fetches (code bug) -/

/-- C1: a full forward scan of the concrete one-record file `exampleFile`
fetches page 1 twice and issues **no** unpin at all, so the scan leaves
page 1's pin count elevated by 2 — `RmScan::next` has no `unpin_page` call,
contradicting the claim that every fetch is matched by an unpin with
`dirty = false`. -/
theorem C1_scan_leaks_pins :
    RmScan.fullScanEvents exampleFile = [.fetchEv 1, .fetchEv 1] ∧
    ((RmScan.fullScanEvents exampleFile).filter RmEvent.isUnpin).length = 0 ∧
    netPinDelta (RmScan.fullScanEvents exampleFile) 1 = 2 := by
  decide

/-! ### C5: insert-at-rid breaks the free-chain invariant (code bug) -/

/-- C5: starting from a fresh record file with one slot per page, the listed
operations insert, insert, delete, delete reach a state (`chainScenario`)
whose free chain is `[2, 1]` and where the free-chain invariant holds; the
subsequent `insert_record(rid = (1,0))` fills page 1 — the *tail* of the
chain — and executes `first_free_page_no := page1.next_free_page_no = RM_NO_PAGE`,
emptying the chain while page 2 still has a free slot: the invariant is
violated. -/
theorem C5_insert_at_rid_breaks_free_chain :
    RmFileHandle.insert_record (RmFile.freshFile 1 1) [10] =
      (.ok (⟨1, 0⟩, chainFile1), [.newEv 1, .unpinEv 1 true]) ∧
    RmFileHandle.insert_record chainFile1 [11] =
      (.ok (⟨2, 0⟩, chainFile2), [.newEv 2, .unpinEv 2 true]) ∧
    RmFileHandle.delete_record chainFile2 ⟨1, 0⟩ =
      (.ok chainFile3, [.fetchEv 1, .unpinEv 1 true]) ∧
    RmFileHandle.delete_record chainFile3 ⟨2, 0⟩ =
      (.ok chainFile4, [.fetchEv 2, .unpinEv 2 true]) ∧
    RmFile.freeChainInvB chainFile4 = true ∧
    RmFileHandle.insert_record_at chainFile4 ⟨1, 0⟩ [12] =
      (.ok chainFile5, [.fetchEv 1, .unpinEv 1 true]) ∧
    RmFile.freeChainInvB chainFile5 = false ∧
    chainFile5.hdr.first_free_page_no = RM_NO_PAGE ∧
    chainFile5.hasFreeSlot 2 = true :=
  ⟨by decide, by decide, by decide, by decide, by decide, by decide,
   by decide, by decide, by decide⟩

/-- C8 witness: the theorem applied to a concrete one-record file. -/
theorem C8_witness :
    0 ≤ (Rid.mk 1 0).page_no ∧
    (Rid.mk 1 0).page_no < ((exampleFile.hdr.num_pages : Nat) : Int) ∧
    Bitmap.is_set ((exampleFile.page (Rid.mk 1 0).page_no.toNat).bitmap)
      (Rid.mk 1 0).slot_no = true ∧
    ∃ f1 : RmFile,
      (RmFileHandle.delete_record exampleFile ⟨1, 0⟩).1 = .ok f1 ∧
      (RmFileHandle.get_record f1 ⟨1, 0⟩).1 = .error (.recordNotFound 1 0) ∧
      Bitmap.is_set (f1.page (1 : Int).toNat).bitmap 0 = false ∧
      (f1.page (1 : Int).toNat).hdr.num_records =
        (exampleFile.page (1 : Int).toNat).hdr.num_records - 1 :=
  ⟨by decide, by decide, by decide,
    C8_delete_then_get exampleFile ⟨1, 0⟩ (by decide) (by decide) (by decide)⟩


/-! ### C4: insert then get returns the same bytes -/

/-- Appending an element and reading at the old length yields it. -/
theorem getD_concat_self {α : Type} (l : List α) (x d : α) :
    (l ++ [x]).getD l.length d = x := by
  rw [List.getD_append_right _ _ _ _ (Nat.le_refl _)]
  simp

/-- Setting a bit sets it. -/
theorem is_set_set_self (bm : List Bool) (i : Int) (h0 : 0 ≤ i)
    (h : i.toNat < bm.length) : Bitmap.is_set (Bitmap.set bm i) i = true := by
  simp only [Bitmap.is_set, Bitmap.set, getD_set_self _ _ _ _ h]
  simp [h0]

/-- On an all-clear bitmap the first free slot is slot 0. -/
theorem first_bit_replicate_false (n : Nat) (h : 0 < n) :
    Bitmap.first_bit false (List.replicate n false) n = 0 := by
  cases n with
  | zero => omega
  | succ m => rfl

/-- Shape of a successful `insert_record` on a well-formed file: the record
bytes land in slot `slot` of page `pno`, whose bit is now set; the page is in
range and `record_size` is unchanged. -/
theorem insert_record_shape (f : RmFile) (r : List Nat) (hwf : f.insertWF) :
    ∃ (pno slot : Nat) (f1 : RmFile) (evs : List RmEvent),
      RmFileHandle.insert_record f r =
        (.ok (⟨(pno : Int), (slot : Int)⟩, f1), evs) ∧
      (pno : Int) < (f1.hdr.num_pages : Int) ∧
      f1.hdr.record_size = f.hdr.record_size ∧
      Bitmap.is_set (f1.page pno).bitmap (slot : Int) = true ∧
      (f1.page pno).slots.getD slot [] = r.take f.hdr.record_size := by
  obtain ⟨hnp, hn, hchain⟩ := hwf
  by_cases hff : f.hdr.first_free_page_no = RM_NO_PAGE
  · simp only [RmFileHandle.insert_record, RmFileHandle.create_page_handle,
      RmFileHandle.create_new_page_handle, hff, if_pos, ite_true]
    have hpgA : (RmFile.mk
        { record_size := f.hdr.record_size,
          num_records_per_page := f.hdr.num_records_per_page,
          first_free_page_no := (f.pages.length : Int),
          num_pages := f.hdr.num_pages + 1 }
        (f.pages ++ [RmPage.mk { next_free_page_no := RM_NO_PAGE, num_records := 0 }
          (List.replicate f.hdr.num_records_per_page false)
          (List.replicate f.hdr.num_records_per_page
            (List.replicate f.hdr.record_size 0))])).page f.pages.length =
        RmPage.mk { next_free_page_no := RM_NO_PAGE, num_records := 0 }
          (List.replicate f.hdr.num_records_per_page false)
          (List.replicate f.hdr.num_records_per_page
            (List.replicate f.hdr.record_size 0)) := by
      unfold RmFile.page
      exact getD_concat_self _ _ _
    rw [hpgA]
    rw [first_bit_replicate_false _ hn]
    simp only [RmFile.setPage]
    have hpage : ∀ (h1 : RmFileHdr),
        (RmFile.mk h1 ((f.pages ++
            [RmPage.mk { next_free_page_no := RM_NO_PAGE, num_records := 0 }
              (List.replicate f.hdr.num_records_per_page false)
              (List.replicate f.hdr.num_records_per_page
                (List.replicate f.hdr.record_size 0))]).set f.pages.length
            (RmPage.mk { next_free_page_no := RM_NO_PAGE, num_records := 0 + 1 }
              (Bitmap.set (List.replicate f.hdr.num_records_per_page false)
                ((0 : Nat) : Int))
              ((List.replicate f.hdr.num_records_per_page
                (List.replicate f.hdr.record_size 0)).set 0
                (r.take f.hdr.record_size))))).page f.pages.length =
          RmPage.mk { next_free_page_no := RM_NO_PAGE, num_records := 0 + 1 }
            (Bitmap.set (List.replicate f.hdr.num_records_per_page false)
              ((0 : Nat) : Int))
            ((List.replicate f.hdr.num_records_per_page
              (List.replicate f.hdr.record_size 0)).set 0
              (r.take f.hdr.record_size)) := by
      intro h1
      unfold RmFile.page
      exact getD_set_self _ _ _ _ (by simp)
    by_cases hone : (0 : Int) + 1 = (f.hdr.num_records_per_page : Int)
    · rw [if_pos hone]
      refine ⟨f.pages.length, 0, _, _, rfl, ?_, ?_, ?_, ?_⟩
      · show (f.pages.length : Int) < ((f.hdr.num_pages + 1 : Nat) : Int)
        omega
      · rfl
      · rw [hpage]
        exact is_set_set_self _ _ (by omega) (by simp [hn])
      · rw [hpage]
        exact getD_set_self _ _ _ _ (by simp [hn])
    · rw [if_neg hone]
      refine ⟨f.pages.length, 0, _, _, rfl, ?_, ?_, ?_, ?_⟩
      · show (f.pages.length : Int) < ((f.hdr.num_pages + 1 : Nat) : Int)
        omega
      · rfl
      · rw [hpage]
        exact is_set_set_self _ _ (by omega) (by simp [hn])
      · rw [hpage]
        exact getD_set_self _ _ _ _ (by simp [hn])
  · obtain ⟨hge1, hlt, hbml, hsll, hfb⟩ := hchain.resolve_left hff
    have hb : ¬ (f.hdr.first_free_page_no < 0 ∨
        (f.hdr.num_pages : Int) ≤ f.hdr.first_free_page_no) := by
      omega
    have hcp : RmFileHandle.create_page_handle f =
        (.ok (f, f.hdr.first_free_page_no.toNat),
          [.fetchEv f.hdr.first_free_page_no]) := by
      unfold RmFileHandle.create_page_handle
      rw [if_neg hff, if_neg hb]
    simp only [RmFileHandle.insert_record, hcp, RmFile.setPage]
    have hplen : f.hdr.first_free_page_no.toNat < f.pages.length := by omega
    have hpage : ∀ (h1 : RmFileHdr) (pg1 : RmPage),
        (RmFile.mk h1 (f.pages.set f.hdr.first_free_page_no.toNat pg1)).page
          f.hdr.first_free_page_no.toNat = pg1 := by
      intro h1 pg1
      unfold RmFile.page
      exact getD_set_self _ _ _ _ hplen
    by_cases hone : (f.page f.hdr.first_free_page_no.toNat).hdr.num_records + 1 =
        (f.hdr.num_records_per_page : Int)
    · rw [if_pos hone]
      refine ⟨f.hdr.first_free_page_no.toNat,
        Bitmap.first_bit false (f.page f.hdr.first_free_page_no.toNat).bitmap
          f.hdr.num_records_per_page, _, _, rfl, ?_, ?_, ?_, ?_⟩
      · show ((f.hdr.first_free_page_no.toNat : Nat) : Int) <
          ((f.hdr.num_pages : Nat) : Int)
        omega
      · rfl
      · rw [hpage]
        exact is_set_set_self _ _ (by omega)
          (by rw [Int.toNat_natCast, hbml]; exact hfb)
      · rw [hpage]
        exact getD_set_self _ _ _ _ (by rw [hsll]; exact hfb)
    · rw [if_neg hone]
      refine ⟨f.hdr.first_free_page_no.toNat,
        Bitmap.first_bit false (f.page f.hdr.first_free_page_no.toNat).bitmap
          f.hdr.num_records_per_page, _, _, rfl, ?_, ?_, ?_, ?_⟩
      · show ((f.hdr.first_free_page_no.toNat : Nat) : Int) <
          ((f.hdr.num_pages : Nat) : Int)
        omega
      · rfl
      · rw [hpage]
        exact is_set_set_self _ _ (by omega)
          (by rw [Int.toNat_natCast, hbml]; exact hfb)
      · rw [hpage]
        exact getD_set_self _ _ _ _ (by rw [hsll]; exact hfb)

/-- C4: for every record buffer of the file's record size, a successful
`insert_record(r)` returning `rid` makes an immediately following
`get_record(rid)` succeed with bytes equal to `r`. -/
theorem C4_insert_then_get (f : RmFile) (r : List Nat)
    (hwf : f.insertWF) (hlen : r.length = f.hdr.record_size) :
    ∃ (rid : Rid) (f1 : RmFile) (evs : List RmEvent),
      RmFileHandle.insert_record f r = (.ok (rid, f1), evs) ∧
      (RmFileHandle.get_record f1 rid).1 = .ok r := by
  obtain ⟨pno, slot, f1, evs, hins, hlt, hrs, hbit, hsl⟩ :=
    insert_record_shape f r hwf
  refine ⟨⟨(pno : Int), (slot : Int)⟩, f1, evs, hins, ?_⟩
  unfold RmFileHandle.get_record
  have hnb : ¬ ((Rid.mk (pno : Int) (slot : Int)).page_no < 0 ∨
      (f1.hdr.num_pages : Int) ≤ (Rid.mk (pno : Int) (slot : Int)).page_no) := by
    show ¬ ((pno : Int) < 0 ∨ (f1.hdr.num_pages : Int) ≤ (pno : Int))
    omega
  rw [if_neg hnb]
  have htn : ((Rid.mk (pno : Int) (slot : Int)).page_no).toNat = pno :=
    Int.toNat_natCast pno
  have hsn : ((Rid.mk (pno : Int) (slot : Int)).slot_no).toNat = slot :=
    Int.toNat_natCast slot
  simp only [htn, hsn]
  rw [if_pos hbit]
  rw [hrs, hsl, List.take_take]
  simp [hlen]

/-- C4 witness: the theorem applied to the concrete one-record file and the
one-byte record `[9]`. -/
theorem C4_witness :
    RmFile.insertWF exampleFile ∧
    ([9] : List Nat).length = exampleFile.hdr.record_size ∧
    ∃ (rid : Rid) (f1 : RmFile) (evs : List RmEvent),
      RmFileHandle.insert_record exampleFile [9] = (.ok (rid, f1), evs) ∧
      (RmFileHandle.get_record f1 rid).1 = .ok [9] :=
  ⟨by decide, by decide,
    C4_insert_then_get exampleFile [9] (by decide) (by decide)⟩


/-! ### C2: the index backfill -/

/-- Every rid in `liveAfter` is a readable slot: in-range page, set bit. -/
theorem liveAfter_mem_readable (f : RmFile) (q : Nat) (s : Int) (r : Rid)
    (h : r ∈ f.liveAfter q s) :
    0 ≤ r.page_no ∧ r.page_no < (f.hdr.num_pages : Int) ∧ 0 ≤ r.slot_no ∧
    (f.page r.page_no.toNat).bitmap.getD r.slot_no.toNat false = true := by
  unfold RmFile.liveAfter at h
  by_cases hq : q < f.hdr.num_pages
  · rw [if_pos hq, List.mem_append] at h
    rcases h with h | h
    · obtain ⟨i, hi, rfl⟩ := List.mem_map.mp h
      obtain ⟨h1, h2, h3⟩ := (liveList_mem _ _ _ _).mp hi
      refine ⟨by positivity, ?_, by positivity, ?_⟩
      · show ((q : Nat) : Int) < (f.hdr.num_pages : Int)
        exact_mod_cast hq
      rw [show ((q : Int)).toNat = q from Int.toNat_natCast q,
        show ((i : Int)).toNat = i from Int.toNat_natCast i]
      exact h3
    · rw [liveFrom_go] at h
      obtain ⟨qq, i, h1, h2, h3, h4, rfl⟩ :=
        (liveFromGo_mem f _ _ _).mp h
      refine ⟨by positivity, ?_, by positivity, ?_⟩
      · show ((qq : Nat) : Int) < (f.hdr.num_pages : Int)
        have : qq < f.hdr.num_pages := by omega
        exact_mod_cast this
      · rw [show (((qq : Nat) : Int)).toNat = qq from Int.toNat_natCast qq,
          show (((i : Nat) : Int)).toNat = i from Int.toNat_natCast i]
        exact h4
  · rw [if_neg hq] at h
    exact absurd h (List.not_mem_nil r)

/-- `get_record` succeeds on a readable slot and returns its bytes. -/
theorem get_record_ok (f : RmFile) (r : Rid)
    (h0 : 0 ≤ r.page_no) (hN : r.page_no < (f.hdr.num_pages : Int))
    (hs : 0 ≤ r.slot_no)
    (hbit : (f.page r.page_no.toNat).bitmap.getD r.slot_no.toNat false = true) :
    (RmFileHandle.get_record f r).1 = .ok (f.recordOf r) := by
  unfold RmFileHandle.get_record RmFile.recordOf
  rw [if_neg (by omega)]
  have hset : Bitmap.is_set (f.page r.page_no.toNat).bitmap r.slot_no = true := by
    unfold Bitmap.is_set
    rw [hbit]
    simp [hs]
  rw [if_pos hset]

/-- The backfill loop maps the key construction over the scan trace. -/
theorem backfillGo_eq (f : RmFile) (cols : List ColMeta) :
    ∀ (fuel q : Nat) (s : Int),
      (f.liveAfter q s).length ≤ fuel →
      SmManager.backfillGo f cols fuel (RmScan.nextLoop f (q : Int) s) =
        (f.liveAfter q s).map (fun r => (buildKey (f.recordOf r) cols, r)) := by
  intro fuel
  induction fuel with
  | zero =>
    intro q s hlen
    have hnil : f.liveAfter q s = [] := by
      cases h : f.liveAfter q s with
      | nil => rfl
      | cons a l =>
        rw [h] at hlen
        simp at hlen
    rw [hnil]
    rfl
  | succ fuel ih =>
    intro q s hlen
    cases hLA : f.liveAfter q s with
    | nil =>
      have hend := (nextLoop_liveAfter f q s).1 hLA
      have hstep : SmManager.backfillGo f cols (fuel + 1)
          (RmScan.nextLoop f (q : Int) s) =
          if RmScan.is_end (RmScan.nextLoop f (q : Int) s) then []
          else
            match (RmFileHandle.get_record f (RmScan.nextLoop f (q : Int) s)).1 with
            | .error _ => []
            | .ok rec => (buildKey rec cols, RmScan.nextLoop f (q : Int) s) ::
                SmManager.backfillGo f cols fuel
                  (RmScan.nextLoop f (RmScan.nextLoop f (q : Int) s).page_no
                    (RmScan.nextLoop f (q : Int) s).slot_no) := rfl
      rw [hstep, if_pos (by simp [RmScan.is_end, hend, RM_NO_PAGE])]
      rfl
    | cons r rest =>
      obtain ⟨hstep, qq, jj, hr, hqq, hrest⟩ :=
        (nextLoop_liveAfter f q s).2 r rest hLA
      have hread := liveAfter_mem_readable f q s r (by rw [hLA]; exact List.mem_cons_self r rest)
      have hrec := get_record_ok f r hread.1 hread.2.1 hread.2.2.1 hread.2.2.2
      have hstepEq : SmManager.backfillGo f cols (fuel + 1)
          (RmScan.nextLoop f (q : Int) s) =
          if RmScan.is_end (RmScan.nextLoop f (q : Int) s) then []
          else
            match (RmFileHandle.get_record f (RmScan.nextLoop f (q : Int) s)).1 with
            | .error _ => []
            | .ok rec => (buildKey rec cols, RmScan.nextLoop f (q : Int) s) ::
                SmManager.backfillGo f cols fuel
                  (RmScan.nextLoop f (RmScan.nextLoop f (q : Int) s).page_no
                    (RmScan.nextLoop f (q : Int) s).slot_no) := rfl
      have hne : RmScan.is_end r = false := by
        rw [hr]
        simp only [RmScan.is_end, RM_NO_PAGE, beq_eq_false_iff_ne, ne_eq]
        omega
      rw [hstepEq, hstep]
      rw [if_neg (by rw [hne]; exact Bool.false_ne_true), hrec]
      have hlen2 : (f.liveAfter qq (jj : Int)).length ≤ fuel := by
        rw [hLA] at hlen
        rw [← hrest]
        simpa using Nat.le_of_succ_le_succ hlen
      rw [hr]
      rw [ih qq (jj : Int) hlen2, ← hrest, ← hr]
      rfl

/-- C2 (amended): the backfill inserts, for every live record of the table in
scan order, the pair `(key, rid)` whose key concatenates the records' column
byte ranges in the order the columns were passed to `create_index`. -/
theorem C2_backfill_inserts_all_live (f : RmFile) (cols : List ColMeta) :
    SmManager.backfill f cols =
      f.liveRids.map (fun r => (buildKey (f.recordOf r) cols, r)) ∧
    (∀ r : Rid, r ∈ f.liveRids ↔ f.isLiveRid r) := by
  constructor
  · unfold SmManager.backfill RmScan.start
    rw [show (RM_FIRST_RECORD_PAGE : Int) = ((1 : Nat) : Int) from rfl]
    rw [backfillGo_eq f cols _ 1 (-1)
      (Nat.le_succ_of_le (liveAfter_length f 1 (-1)))]
    rw [← liveFrom_eq_liveAfter]
    rfl
  · exact liveRids_mem f

/-- C2 counterexample: for the two-column table `t(a int(4), b int(4))` and
`create_index("t", ["b", "a"])`, the collected columns are in argument order
`[b, a]`, so the backfill key of the record `[10..17]` is
`bytes[4..8) ++ bytes[0..4)` — not the table-declaration-order key
`bytes[0..4) ++ bytes[4..8)` the claim asserts. -/
theorem C2_counterexample :
    SmManager.collectIndexCols idxTabCols ["b", "a"] =
      some [⟨"t", "b", 1, 4, 4, false⟩, ⟨"t", "a", 1, 4, 0, false⟩] ∧
    SmManager.backfill idxFile
      [⟨"t", "b", 1, 4, 4, false⟩, ⟨"t", "a", 1, 4, 0, false⟩] =
      [([14, 15, 16, 17, 10, 11, 12, 13], ⟨1, 0⟩)] ∧
    (idxFile.liveRids).map (fun r =>
        (buildKeyDeclOrder (idxFile.recordOf r) idxTabCols ["b", "a"], r)) =
      [([10, 11, 12, 13, 14, 15, 16, 17], ⟨1, 0⟩)] ∧
    SmManager.backfill idxFile
      [⟨"t", "b", 1, 4, 4, false⟩, ⟨"t", "a", 1, 4, 0, false⟩] ≠
      (idxFile.liveRids).map (fun r =>
        (buildKeyDeclOrder (idxFile.recordOf r) idxTabCols ["b", "a"], r)) :=
  ⟨by decide, by decide, by decide, by decide⟩


/-! ### C3: catalog persistence round trip -/

/-- C3: in the scenario `create_db("d"); create_table("t",
[(a:int,4),(b:int,4)]); create_index("t",["a"])`, serializing `DbMeta` (what
`close_db`'s `flush_meta` writes) and deserializing it (what the re-opening
`open_db` reads) reproduces the catalog exactly — in particular the `TabMeta`
for `"t"` with its entry `indexes["t_a.idx"]`. -/
theorem C3_catalog_roundtrip :
    C3scenario = some C3db ∧
    DbMeta.parse (DbMeta.ser C3db) = some (C3db, []) ∧
    ((C3db.tabs.find? (fun p => p.1 == "t")).map
      (fun p => (p.2.indexes.find? (fun q => q.1 == "t_a.idx")).isSome)) =
      some true :=
  ⟨by decide, by decide, by decide⟩

/-! ### C10: `offsets` stays empty -/

/-- A parsed `IndexMeta` has empty `offsets`. -/
theorem IndexMeta_parse_offsets (ts : List Tok) (m : IndexMeta)
    (rest : List Tok) (h : IndexMeta.parse ts = some (m, rest)) :
    m.offsets = [] := by
  unfold IndexMeta.parse at h
  split at h
  · split at h
    · exact Option.noConfusion h
    · rw [Option.some.injEq] at h
      rw [← (Prod.mk.injEq _ _ _ _).mp h |>.1]
  · exact Option.noConfusion h

/-- Every index read by the `TabMeta` index loop has empty `offsets`. -/
theorem parseIndexesLoop_offsets :
    ∀ (k : Nat) (ts : List Tok) (res : List (String × IndexMeta))
      (rest : List Tok),
      parseIndexesLoop k ts = some (res, rest) →
      ∀ e ∈ res, e.2.offsets = [] := by
  intro k
  induction k with
  | zero =>
    intro ts res rest h e he
    unfold parseIndexesLoop at h
    rw [Option.some.injEq] at h
    rw [← (Prod.mk.injEq _ _ _ _).mp h |>.1] at he
    exact absurd he (List.not_mem_nil e)
  | succ k ih =>
    intro ts res rest h e he
    unfold parseIndexesLoop at h
    split at h
    · split at h
      · exact Option.noConfusion h
      · split at h
        · exact Option.noConfusion h
        · rw [Option.some.injEq] at h
          rw [← (Prod.mk.injEq _ _ _ _).mp h |>.1] at he
          rcases List.mem_cons.mp he with rfl | he2
          · exact IndexMeta_parse_offsets _ _ _ (by assumption)
          · exact ih _ _ _ (by assumption) e he2
    · exact Option.noConfusion h

/-- Every index of a parsed `TabMeta` has empty `offsets`. -/
theorem TabMeta_parse_offsets (ts : List Tok) (t : TabMeta) (rest : List Tok)
    (h : TabMeta.parse ts = some (t, rest)) :
    ∀ e ∈ t.indexes, e.2.offsets = [] := by
  unfold TabMeta.parse at h
  split at h
  · split at h
    · exact Option.noConfusion h
    · split at h
      · split at h
        · exact Option.noConfusion h
        · rw [Option.some.injEq] at h
          intro e he
          rw [← (Prod.mk.injEq _ _ _ _).mp h |>.1] at he
          exact parseIndexesLoop_offsets _ _ _ _ (by assumption) e he
      · exact Option.noConfusion h
  · exact Option.noConfusion h

/-- Membership after a `std::map` insert comes from the new entry or the old
map. -/
theorem mapInsertTab_mem (k : String) (v : TabMeta) :
    ∀ (l : List (String × TabMeta)) (x : String × TabMeta),
      x ∈ mapInsertTab k v l → x = (k, v) ∨ x ∈ l := by
  intro l
  induction l with
  | nil =>
    intro x hx
    unfold mapInsertTab at hx
    rcases List.mem_cons.mp hx with rfl | hx2
    · exact Or.inl rfl
    · exact absurd hx2 (List.not_mem_nil x)
  | cons p rest ih =>
    intro x hx
    unfold mapInsertTab at hx
    split at hx
    · rcases List.mem_cons.mp hx with rfl | hx2
      · exact Or.inl rfl
      · exact Or.inr (List.mem_cons_of_mem p hx2)
    · split at hx
      · rcases List.mem_cons.mp hx with rfl | hx2
        · exact Or.inl rfl
        · exact Or.inr hx2
      · rcases List.mem_cons.mp hx with rfl | hx2
        · exact Or.inr (List.mem_cons_self p rest)
        · rcases ih x hx2 with h | h
          · exact Or.inl h
          · exact Or.inr (List.mem_cons_of_mem p h)

/-- Every index of every table read by the `DbMeta` table loop has empty
`offsets`, provided the accumulator already satisfies this. -/
theorem parseTabsLoop_offsets :
    ∀ (k : Nat) (ts : List Tok) (acc tabs : List (String × TabMeta))
      (rest : List Tok),
      (∀ t ∈ acc, ∀ e ∈ t.2.indexes, e.2.offsets = []) →
      parseTabsLoop k ts acc = some (tabs, rest) →
      ∀ t ∈ tabs, ∀ e ∈ t.2.indexes, e.2.offsets = [] := by
  intro k
  induction k with
  | zero =>
    intro ts acc tabs rest hacc h
    unfold parseTabsLoop at h
    rw [Option.some.injEq] at h
    rw [← (Prod.mk.injEq _ _ _ _).mp h |>.1]
    exact hacc
  | succ k ih =>
    intro ts acc tabs rest hacc h
    unfold parseTabsLoop at h
    split at h
    · exact Option.noConfusion h
    · refine ih _ _ _ _ ?_ h
      intro t ht
      rcases mapInsertTab_mem _ _ _ _ ht with rfl | ht2
      · exact TabMeta_parse_offsets _ _ _ (by assumption)
      · exact hacc t ht2

/-- C10: the `offsets` vector of an `IndexMeta` is empty both for every index
built by `create_index` (which fills the other fields but never calls
`calculate_offsets`) and for every index loaded by `open_db`'s catalog read;
and the catalog serialization does not depend on `offsets` at all. -/
theorem C10_offsets_empty :
    (∀ (tab : TabMeta) (col_names : List String) (nm : String)
       (idx : IndexMeta) (tab2 : TabMeta),
       SmManager.create_index_meta tab col_names = some (nm, idx, tab2) →
       idx.offsets = []) ∧
    (∀ (ts : List Tok) (db : DbMeta) (rest : List Tok),
       DbMeta.parse ts = some (db, rest) →
       ∀ t ∈ db.tabs, ∀ e ∈ t.2.indexes, e.2.offsets = []) ∧
    (∀ (m : IndexMeta) (ofs : List Int),
       IndexMeta.ser { m with offsets := ofs } = IndexMeta.ser m) := by
  refine ⟨?_, ?_, ?_⟩
  · intro tab col_names nm idx tab2 h
    simp only [SmManager.create_index_meta] at h
    split at h
    · exact Option.noConfusion h
    · split at h
      · exact Option.noConfusion h
      · rw [Option.some.injEq] at h
        have h2 := ((Prod.mk.injEq _ _ _ _).mp
          ((Prod.mk.injEq _ _ _ _).mp h).2).1
        rw [← h2]
  · intro ts db rest h t ht e he
    unfold DbMeta.parse at h
    split at h
    · split at h
      · exact Option.noConfusion h
      · rw [Option.some.injEq] at h
        have h1 := ((Prod.mk.injEq _ _ _ _).mp h).1
        rw [← h1] at ht
        refine parseTabsLoop_offsets _ _ _ _ _ ?_ (by assumption) t ht e he
        intro t2 ht2
        exact absurd ht2 (List.not_mem_nil t2)
    · exact Option.noConfusion h
  · intro m ofs
    rfl

/-- C10 witness: the theorem applied to the concrete scenario catalog. -/
theorem C10_witness :
    SmManager.create_index_meta
        (SmManager.create_table_meta "t" [⟨"a", 1, 4⟩, ⟨"b", 1, 4⟩]) ["a"] =
      some ("t_a.idx",
        ⟨"t", "t_a.idx", 4, 1, [⟨"t", "a", 1, 4, 0, false⟩], []⟩,
        C3db.tabs.getD 0 ("", ⟨"", [], [], []⟩) |>.2) ∧
    (⟨"t", "t_a.idx", 4, 1, [⟨"t", "a", 1, 4, 0, false⟩], []⟩ :
      IndexMeta).offsets = [] ∧
    (∀ t ∈ C3db.tabs, ∀ e ∈ t.2.indexes, e.2.offsets = []) :=
  ⟨by decide, by decide, by
    have hparse : DbMeta.parse (DbMeta.ser C3db) = some (C3db, []) := by decide
    exact (C10_offsets_empty).2.1 (DbMeta.ser C3db) C3db [] hparse⟩

/-! ### C7: the buffer pool never evicts pinned pages -/

/-- A list's last element is a member. -/
theorem mem_of_getLastEq (l : List Nat) (a : Nat) (h : l.getLast? = some a) :
    a ∈ l := by
  induction l with
  | nil => exact Option.noConfusion h
  | cons x xs ih =>
    cases xs with
    | nil =>
      rw [List.getLast?_singleton, Option.some.injEq] at h
      rw [h]
      exact List.mem_cons_self a []
    | cons y ys =>
      rw [List.getLast?_cons_cons] at h
      exact List.mem_cons_of_mem x (ih h)

/-- In a duplicate-free list the last element does not recur earlier. -/
theorem not_mem_dropLast_of_nodup (l : List Nat) (a : Nat)
    (h : l.getLast? = some a) (hnd : l.Nodup) : a ∉ l.dropLast := by
  have hne : l ≠ [] := by
    intro he
    rw [he] at h
    exact Option.noConfusion h
  have hsplit : l.dropLast ++ [l.getLast hne] = l := List.dropLast_append_getLast hne
  have hga : l.getLast hne = a := by
    have := List.getLast?_eq_getLast l hne
    rw [this, Option.some.injEq] at h
    exact h
  rw [← hsplit] at hnd
  have hdisj := List.disjoint_of_nodup_append hnd
  intro hmem
  exact (hdisj hmem) (by rw [hga]; exact List.mem_cons_self a [])

/-- `find_victim_page` when the free list is non-empty. -/
theorem find_victim_free (b : BufferPool) (f : Nat) (rest : List Nat)
    (h : b.free_list = f :: rest) :
    b.find_victim_page = (some f, { b with free_list := rest }) := by
  unfold BufferPool.find_victim_page
  rw [h]

/-- `find_victim_page` from the replacer. -/
theorem find_victim_repl (b : BufferPool) (f : Nat)
    (hf : b.free_list = []) (hl : b.replacer.lru_list.getLast? = some f) :
    b.find_victim_page =
      (some f,
        { b with
            replacer := { b.replacer with lru_list := b.replacer.lru_list.dropLast } }) := by
  have hne : b.replacer.lru_list ≠ [] := by
    intro he
    rw [he] at hl
    exact Option.noConfusion hl
  unfold BufferPool.find_victim_page LRUReplacer.victim LRUReplacer.Size
  rw [hf, if_pos (List.length_pos.mpr hne), hl]

/-- `find_victim_page` when there is no victim. -/
theorem find_victim_nothing (b : BufferPool)
    (hf : b.free_list = []) (hl : b.replacer.lru_list = []) :
    b.find_victim_page = (none, b) := by
  unfold BufferPool.find_victim_page LRUReplacer.Size
  rw [hf, hl]
  rfl

/-- A list with no last element is empty. -/
theorem getLast_none_nil (l : List Nat) (h : l.getLast? = none) : l = [] := by
  cases l with
  | nil => rfl
  | cons a as =>
    rw [List.getLast?_eq_getLast (a :: as) (List.cons_ne_nil a as)] at h
    exact Option.noConfusion h

/-- A successful `find_victim_page` came from the free-list head or from
the back of the replacer list. -/
theorem find_victim_some (b : BufferPool) (f : Nat) (b2 : BufferPool)
    (h : b.find_victim_page = (some f, b2)) :
    (∃ rest, b.free_list = f :: rest ∧ b2 = { b with free_list := rest }) ∨
    (b.free_list = [] ∧ b.replacer.lru_list.getLast? = some f ∧
      b2 = { b with
        replacer := { b.replacer with lru_list := b.replacer.lru_list.dropLast } }) := by
  have hcase : b.free_list = [] ∨ ∃ g rest, b.free_list = g :: rest := by
    cases b.free_list with
    | nil => exact Or.inl rfl
    | cons g rest => exact Or.inr ⟨g, rest, rfl⟩
  rcases hcase with hf | ⟨g, rest, hf⟩
  · have hlcase : b.replacer.lru_list.getLast? = none ∨
        ∃ g, b.replacer.lru_list.getLast? = some g := by
      cases b.replacer.lru_list.getLast? with
      | none => exact Or.inl rfl
      | some g => exact Or.inr ⟨g, rfl⟩
    rcases hlcase with hl | ⟨g, hl⟩
    · rw [find_victim_nothing b hf (getLast_none_nil _ hl), Prod.mk.injEq] at h
      exact absurd h.1 (fun hh => Option.noConfusion hh)
    · rw [find_victim_repl b g hf hl, Prod.mk.injEq, Option.some.injEq] at h
      refine Or.inr ⟨hf, ?_, h.2.symm⟩
      rw [hl, h.1]
  · rw [find_victim_free b g rest hf, Prod.mk.injEq, Option.some.injEq] at h
    obtain ⟨h1, h2⟩ := h
    subst h1
    exact Or.inl ⟨rest, hf, h2.symm⟩

/-- A `find_victim_page` failure leaves the pool unchanged. -/
theorem find_victim_none_eq (b : BufferPool) (b2 : BufferPool)
    (h : b.find_victim_page = (none, b2)) : b2 = b := by
  have hcase : b.free_list = [] ∨ ∃ g rest, b.free_list = g :: rest := by
    cases b.free_list with
    | nil => exact Or.inl rfl
    | cons g rest => exact Or.inr ⟨g, rest, rfl⟩
  rcases hcase with hf | ⟨g, rest, hf⟩
  · have hlcase : b.replacer.lru_list.getLast? = none ∨
        ∃ g, b.replacer.lru_list.getLast? = some g := by
      cases b.replacer.lru_list.getLast? with
      | none => exact Or.inl rfl
      | some g => exact Or.inr ⟨g, rfl⟩
    rcases hlcase with hl | ⟨g, hl⟩
    · rw [find_victim_nothing b hf (getLast_none_nil _ hl), Prod.mk.injEq] at h
      exact h.2.symm
    · rw [find_victim_repl b g hf hl, Prod.mk.injEq] at h
      exact absurd h.1 (fun hh => Option.noConfusion hh)
  · rw [find_victim_free b g rest hf, Prod.mk.injEq] at h
    exact absurd h.1 (fun hh => Option.noConfusion hh)

/-- A victim frame is in range and unpinned. -/
theorem find_victim_unpinned (b : BufferPool) (hInv : b.Inv) (f : Nat)
    (b2 : BufferPool) (h : b.find_victim_page = (some f, b2)) :
    f < b.pool_size ∧ (b.pages f).pin_count = 0 := by
  rcases find_victim_some b f b2 h with ⟨rest, hf, _⟩ | ⟨_, hl, _⟩
  · have hm := hInv.free_ok f (by rw [hf]; exact List.mem_cons_self f rest)
    exact ⟨hm.1, hm.2.1⟩
  · exact hInv.repl_ok f (mem_of_getLastEq _ _ hl)

/-- A mapped frame is not on the free list. -/
theorem mapped_not_free (b : BufferPool) (hInv : b.Inv) (pid : PageId)
    (fid : Nat) (hpt : b.page_table pid = some fid) : fid ∉ b.free_list := by
  intro hmem
  have h1 := (hInv.free_ok fid hmem).2.2
  have h2 := (hInv.table_ok pid fid hpt).2.1
  have h3 := (hInv.table_ok pid fid hpt).2.2
  rw [h2] at h1
  rw [h1] at h3
  exact absurd h3 (by unfold INVALID_PAGE_ID; omega)

/-- A pinned frame is not in the replacer list. -/
theorem pinned_not_in_repl (b : BufferPool) (hInv : b.Inv) (fid : Nat)
    (hpin : (b.pages fid).pin_count ≠ 0) : fid ∉ b.replacer.lru_list := by
  intro hmem
  exact hpin (hInv.repl_ok fid hmem).2

/-- Membership after `LRUReplacer.unpin`. -/
theorem mem_repl_unpin (r : LRUReplacer) (fid f : Nat)
    (hf : f ∈ (r.unpin fid).lru_list) : f = fid ∨ f ∈ r.lru_list := by
  unfold LRUReplacer.unpin at hf
  by_cases h1 : fid ∈ r.lru_list
  · rw [if_pos h1] at hf
    exact Or.inr hf
  · rw [if_neg h1] at hf
    by_cases h2 : r.max_size ≤ r.lru_list.length
    · rw [if_pos h2] at hf
      exact Or.inr hf
    · rw [if_neg h2] at hf
      exact List.mem_cons.mp hf

/-- `LRUReplacer.unpin` preserves freedom from duplicates. -/
theorem nodup_repl_unpin (r : LRUReplacer) (fid : Nat)
    (hnd : r.lru_list.Nodup) : (r.unpin fid).lru_list.Nodup := by
  unfold LRUReplacer.unpin
  by_cases h1 : fid ∈ r.lru_list
  · rw [if_pos h1]
    exact hnd
  · rw [if_neg h1]
    by_cases h2 : r.max_size ≤ r.lru_list.length
    · rw [if_pos h2]
      exact hnd
    · rw [if_neg h2]
      exact List.nodup_cons.mpr ⟨h1, hnd⟩

/-! #### Projection equations for the post-states -/

theorem hitState_pages (x : BufferPool) (fid g : Nat) :
    (x.hitState fid).pages g =
      if g = fid then { x.pages fid with pin_count := (x.pages fid).pin_count + 1 }
      else x.pages g := rfl

theorem hitState_table (x : BufferPool) (fid : Nat) :
    (x.hitState fid).page_table = x.page_table := rfl

theorem hitState_free (x : BufferPool) (fid : Nat) :
    (x.hitState fid).free_list = x.free_list := rfl

theorem hitState_pool (x : BufferPool) (fid : Nat) :
    (x.hitState fid).pool_size = x.pool_size := rfl

theorem hitState_alloc (x : BufferPool) (fid : Nat) :
    (x.hitState fid).alloc = x.alloc := rfl

theorem hitState_repl (x : BufferPool) (fid : Nat) :
    (x.hitState fid).replacer.lru_list = x.replacer.lru_list.erase fid := rfl

theorem hitState_pages_ne (x : BufferPool) (fid g : Nat) (hg : g ≠ fid) :
    (x.hitState fid).pages g = x.pages g := by
  rw [hitState_pages, if_neg hg]

theorem hitState_pages_id (x : BufferPool) (fid g : Nat) :
    ((x.hitState fid).pages g).id = (x.pages g).id := by
  rw [hitState_pages]
  by_cases hg : g = fid
  · rw [if_pos hg, hg]
  · rw [if_neg hg]

theorem unpinState_pages (x : BufferPool) (fid : Nat) (d : Bool) (g : Nat) :
    (x.unpinState fid d).pages g =
      if g = fid then
        { x.pages fid with
            pin_count := (x.pages fid).pin_count - 1,
            is_dirty := (x.pages fid).is_dirty || d }
      else x.pages g := rfl

theorem unpinState_table (x : BufferPool) (fid : Nat) (d : Bool) :
    (x.unpinState fid d).page_table = x.page_table := rfl

theorem unpinState_free (x : BufferPool) (fid : Nat) (d : Bool) :
    (x.unpinState fid d).free_list = x.free_list := rfl

theorem unpinState_pool (x : BufferPool) (fid : Nat) (d : Bool) :
    (x.unpinState fid d).pool_size = x.pool_size := rfl

theorem unpinState_alloc (x : BufferPool) (fid : Nat) (d : Bool) :
    (x.unpinState fid d).alloc = x.alloc := rfl

theorem unpinState_repl (x : BufferPool) (fid : Nat) (d : Bool) :
    (x.unpinState fid d).replacer =
      if (x.pages fid).pin_count - 1 = 0 then x.replacer.unpin fid
      else x.replacer := rfl

theorem unpinState_pages_ne (x : BufferPool) (fid : Nat) (d : Bool) (g : Nat)
    (hg : g ≠ fid) : (x.unpinState fid d).pages g = x.pages g := by
  rw [unpinState_pages, if_neg hg]

theorem unpinState_pages_id (x : BufferPool) (fid : Nat) (d : Bool) (g : Nat) :
    ((x.unpinState fid d).pages g).id = (x.pages g).id := by
  rw [unpinState_pages]
  by_cases hg : g = fid
  · rw [if_pos hg, hg]
  · rw [if_neg hg]

theorem unpinState_pin_self (x : BufferPool) (fid : Nat) (d : Bool) :
    ((x.unpinState fid d).pages fid).pin_count = (x.pages fid).pin_count - 1 := by
  rw [unpinState_pages, if_pos rfl]

theorem missState_pages (x : BufferPool) (fid : Nat) (pid : PageId) (g : Nat) :
    (x.missState fid pid).pages g =
      if g = fid then
        { id := pid, pin_count := 1, is_dirty := false,
          data :=
            if (x.pages fid).is_dirty then
              if pid = (x.pages fid).id then (x.pages fid).data else x.disk pid
            else x.disk pid }
      else x.pages g := rfl

theorem missState_table (x : BufferPool) (fid : Nat) (pid q : PageId) :
    (x.missState fid pid).page_table q =
      if q = pid then some fid
      else if q = (x.pages fid).id then none
      else x.page_table q := rfl

theorem missState_free (x : BufferPool) (fid : Nat) (pid : PageId) :
    (x.missState fid pid).free_list = x.free_list := rfl

theorem missState_pool (x : BufferPool) (fid : Nat) (pid : PageId) :
    (x.missState fid pid).pool_size = x.pool_size := rfl

theorem missState_alloc (x : BufferPool) (fid : Nat) (pid : PageId) :
    (x.missState fid pid).alloc = x.alloc := rfl

theorem missState_repl (x : BufferPool) (fid : Nat) (pid : PageId) :
    (x.missState fid pid).replacer.lru_list = x.replacer.lru_list.erase fid := rfl

theorem missState_pages_ne (x : BufferPool) (fid : Nat) (pid : PageId) (g : Nat)
    (hg : g ≠ fid) : (x.missState fid pid).pages g = x.pages g := by
  rw [missState_pages, if_neg hg]

theorem missState_pages_self_id (x : BufferPool) (fid : Nat) (pid : PageId) :
    ((x.missState fid pid).pages fid).id = pid := by
  rw [missState_pages, if_pos rfl]

theorem missState_pages_self_pin (x : BufferPool) (fid : Nat) (pid : PageId) :
    ((x.missState fid pid).pages fid).pin_count = 1 := by
  rw [missState_pages, if_pos rfl]

theorem newState_pages (x : BufferPool) (fid : Nat) (fd : Int) (g : Nat) :
    (x.newState fid fd).pages g =
      if g = fid then
        { id := ⟨fd, (x.alloc fd : Int)⟩, pin_count := 1, is_dirty := false,
          data := 0 }
      else x.pages g := rfl

theorem newState_table (x : BufferPool) (fid : Nat) (fd : Int) (q : PageId) :
    (x.newState fid fd).page_table q =
      if q = (⟨fd, (x.alloc fd : Int)⟩ : PageId) then some fid
      else if q = (x.pages fid).id then none
      else x.page_table q := rfl

theorem newState_free (x : BufferPool) (fid : Nat) (fd : Int) :
    (x.newState fid fd).free_list = x.free_list := rfl

theorem newState_pool (x : BufferPool) (fid : Nat) (fd : Int) :
    (x.newState fid fd).pool_size = x.pool_size := rfl

theorem newState_alloc (x : BufferPool) (fid : Nat) (fd g : Int) :
    (x.newState fid fd).alloc g =
      if g = fd then x.alloc fd + 1 else x.alloc g := rfl

theorem newState_repl (x : BufferPool) (fid : Nat) (fd : Int) :
    (x.newState fid fd).replacer.lru_list = x.replacer.lru_list.erase fid := rfl

theorem newState_pages_ne (x : BufferPool) (fid : Nat) (fd : Int) (g : Nat)
    (hg : g ≠ fid) : (x.newState fid fd).pages g = x.pages g := by
  rw [newState_pages, if_neg hg]

theorem newState_pages_self_id (x : BufferPool) (fid : Nat) (fd : Int) :
    ((x.newState fid fd).pages fid).id = ⟨fd, (x.alloc fd : Int)⟩ := by
  rw [newState_pages, if_pos rfl]

theorem delState_pages (x : BufferPool) (fid : Nat) (pid : PageId) (g : Nat) :
    (x.delState fid pid).pages g =
      if g = fid then
        { id := ⟨-1, INVALID_PAGE_ID⟩, pin_count := 0, is_dirty := false,
          data := 0 }
      else x.pages g := rfl

theorem delState_table (x : BufferPool) (fid : Nat) (pid q : PageId) :
    (x.delState fid pid).page_table q =
      if q = pid then none else x.page_table q := rfl

theorem delState_free (x : BufferPool) (fid : Nat) (pid : PageId) :
    (x.delState fid pid).free_list = x.free_list ++ [fid] := rfl

theorem delState_pool (x : BufferPool) (fid : Nat) (pid : PageId) :
    (x.delState fid pid).pool_size = x.pool_size := rfl

theorem delState_alloc (x : BufferPool) (fid : Nat) (pid : PageId) :
    (x.delState fid pid).alloc = x.alloc := rfl

theorem delState_repl (x : BufferPool) (fid : Nat) (pid : PageId) :
    (x.delState fid pid).replacer = x.replacer := rfl

theorem delState_pages_ne (x : BufferPool) (fid : Nat) (pid : PageId) (g : Nat)
    (hg : g ≠ fid) : (x.delState fid pid).pages g = x.pages g := by
  rw [delState_pages, if_neg hg]

theorem delState_pages_self (x : BufferPool) (fid : Nat) (pid : PageId) :
    (x.delState fid pid).pages fid =
      { id := ⟨-1, INVALID_PAGE_ID⟩, pin_count := 0, is_dirty := false,
        data := 0 } := by
  rw [delState_pages, if_pos rfl]

theorem flushState_pages (x : BufferPool) (fid g : Nat) :
    (x.flushState fid).pages g =
      if g = fid then { x.pages fid with is_dirty := false }
      else x.pages g := rfl

theorem flushState_table (x : BufferPool) (fid : Nat) :
    (x.flushState fid).page_table = x.page_table := rfl

theorem flushState_free (x : BufferPool) (fid : Nat) :
    (x.flushState fid).free_list = x.free_list := rfl

theorem flushState_pool (x : BufferPool) (fid : Nat) :
    (x.flushState fid).pool_size = x.pool_size := rfl

theorem flushState_alloc (x : BufferPool) (fid : Nat) :
    (x.flushState fid).alloc = x.alloc := rfl

theorem flushState_repl (x : BufferPool) (fid : Nat) :
    (x.flushState fid).replacer = x.replacer := rfl

theorem flushState_pages_id (x : BufferPool) (fid g : Nat) :
    ((x.flushState fid).pages g).id = (x.pages g).id := by
  rw [flushState_pages]
  by_cases hg : g = fid
  · rw [if_pos hg, hg]
  · rw [if_neg hg]

theorem flushState_pages_pin (x : BufferPool) (fid g : Nat) :
    ((x.flushState fid).pages g).pin_count = (x.pages g).pin_count := by
  rw [flushState_pages]
  by_cases hg : g = fid
  · rw [if_pos hg, hg]
  · rw [if_neg hg]

/-! #### Branch equations for the operations -/

theorem fetch_page_hit (b : BufferPool) (pid : PageId) (fid : Nat)
    (hq : b.page_table pid = some fid) :
    b.fetch_page pid = (some fid, b.hitState fid) := by
  unfold BufferPool.fetch_page
  rw [hq]

theorem fetch_page_fail (b : BufferPool) (pid : PageId) (b1 : BufferPool)
    (hq : b.page_table pid = none) (hv : b.find_victim_page = (none, b1)) :
    b.fetch_page pid = (none, b1) := by
  unfold BufferPool.fetch_page
  rw [hq, hv]

theorem fetch_page_miss (b : BufferPool) (pid : PageId) (fid : Nat)
    (b1 : BufferPool) (hq : b.page_table pid = none)
    (hv : b.find_victim_page = (some fid, b1)) :
    b.fetch_page pid = (some fid, b1.missState fid pid) := by
  unfold BufferPool.fetch_page
  rw [hq, hv]

theorem unpin_page_none (b : BufferPool) (pid : PageId) (d : Bool)
    (hq : b.page_table pid = none) : b.unpin_page pid d = (false, b) := by
  unfold BufferPool.unpin_page
  rw [hq]

theorem unpin_page_zero (b : BufferPool) (pid : PageId) (d : Bool) (fid : Nat)
    (hq : b.page_table pid = some fid) (hz : (b.pages fid).pin_count = 0) :
    b.unpin_page pid d = (false, b) := by
  unfold BufferPool.unpin_page
  rw [hq]
  show (if (b.pages fid).pin_count = 0 then ((false, b) : Bool × BufferPool)
      else (true, b.unpinState fid d)) = (false, b)
  rw [if_pos hz]

theorem unpin_page_go (b : BufferPool) (pid : PageId) (d : Bool) (fid : Nat)
    (hq : b.page_table pid = some fid) (hz : (b.pages fid).pin_count ≠ 0) :
    b.unpin_page pid d = (true, b.unpinState fid d) := by
  unfold BufferPool.unpin_page
  rw [hq]
  show (if (b.pages fid).pin_count = 0 then ((false, b) : Bool × BufferPool)
      else (true, b.unpinState fid d)) = (true, b.unpinState fid d)
  rw [if_neg hz]

theorem new_page_fail (b : BufferPool) (fd : Int) (b1 : BufferPool)
    (hv : b.find_victim_page = (none, b1)) : b.new_page fd = (none, b1) := by
  unfold BufferPool.new_page
  rw [hv]

theorem new_page_go (b : BufferPool) (fd : Int) (fid : Nat) (b1 : BufferPool)
    (hv : b.find_victim_page = (some fid, b1)) :
    b.new_page fd = (some (fid, (b1.alloc fd : Int)), b1.newState fid fd) := by
  unfold BufferPool.new_page
  rw [hv]

theorem delete_page_none (b : BufferPool) (pid : PageId)
    (hq : b.page_table pid = none) : b.delete_page pid = (true, b) := by
  unfold BufferPool.delete_page
  rw [hq]

theorem delete_page_pinned (b : BufferPool) (pid : PageId) (fid : Nat)
    (hq : b.page_table pid = some fid) (hz : 0 < (b.pages fid).pin_count) :
    b.delete_page pid = (false, b) := by
  unfold BufferPool.delete_page
  rw [hq]
  show (if 0 < (b.pages fid).pin_count then ((false, b) : Bool × BufferPool)
      else (true, b.delState fid pid)) = (false, b)
  rw [if_pos hz]

theorem delete_page_go (b : BufferPool) (pid : PageId) (fid : Nat)
    (hq : b.page_table pid = some fid) (hz : ¬0 < (b.pages fid).pin_count) :
    b.delete_page pid = (true, b.delState fid pid) := by
  unfold BufferPool.delete_page
  rw [hq]
  show (if 0 < (b.pages fid).pin_count then ((false, b) : Bool × BufferPool)
      else (true, b.delState fid pid)) = (true, b.delState fid pid)
  rw [if_neg hz]

theorem flush_page_none (b : BufferPool) (pid : PageId)
    (hq : b.page_table pid = none) : b.flush_page pid = (false, b) := by
  unfold BufferPool.flush_page
  rw [hq]

theorem flush_page_go (b : BufferPool) (pid : PageId) (fid : Nat)
    (hq : b.page_table pid = some fid) :
    b.flush_page pid = (true, b.flushState fid) := by
  unfold BufferPool.flush_page
  rw [hq]

/-! #### Invariant preservation -/

/-- What survives from the pool into the state a successful
`find_victim_page` returns. -/
theorem victim_state_facts (b : BufferPool) (hInv : b.Inv) (fid : Nat)
    (b1 : BufferPool) (h : b.find_victim_page = (some fid, b1)) :
    b1.pages = b.pages ∧ b1.page_table = b.page_table ∧
    b1.pool_size = b.pool_size ∧ b1.alloc = b.alloc ∧
    (∀ f ∈ b1.replacer.lru_list, f ∈ b.replacer.lru_list) ∧
    b1.replacer.lru_list.Nodup ∧
    (∀ f ∈ b1.free_list, f ∈ b.free_list ∧ f ≠ fid) ∧
    b1.free_list.Nodup := by
  rcases find_victim_some b fid b1 h with ⟨rest, hf, hb⟩ | ⟨hf, hl, hb⟩
  · subst hb
    have hnd := hInv.free_nodup
    rw [hf] at hnd
    refine ⟨rfl, rfl, rfl, rfl, fun f hf2 => hf2, hInv.repl_nodup, ?_, ?_⟩
    · intro f hf2
      constructor
      · rw [hf]
        exact List.mem_cons_of_mem fid hf2
      · intro he
        subst he
        exact (List.nodup_cons.mp hnd).1 hf2
    · exact (List.nodup_cons.mp hnd).2
  · subst hb
    refine ⟨rfl, rfl, rfl, rfl, ?_, ?_, ?_, hInv.free_nodup⟩
    · intro f hf2
      exact (List.dropLast_sublist _).subset hf2
    · exact hInv.repl_nodup.sublist (List.dropLast_sublist _)
    · intro f hf2
      rw [hf] at hf2
      exact absurd hf2 (List.not_mem_nil f)

/-- A `fetch_page` hit preserves the invariant. -/
theorem Inv_hitState (b : BufferPool) (hInv : b.Inv) (pid : PageId) (fid : Nat)
    (hpt : b.page_table pid = some fid) : (b.hitState fid).Inv := by
  have htab := hInv.table_ok pid fid hpt
  refine ⟨?_, ?_, ?_, ?_, ?_, ?_, ?_⟩
  · intro f hf
    rw [hitState_repl] at hf
    have hne : f ≠ fid := (hInv.repl_nodup.mem_erase_iff.mp hf).1
    have hm := hInv.repl_ok f (List.mem_of_mem_erase hf)
    rw [hitState_pool, hitState_pages_ne b fid f hne]
    exact hm
  · intro f hf
    rw [hitState_free] at hf
    have hne : f ≠ fid := by
      intro he
      exact mapped_not_free b hInv pid fid hpt (he ▸ hf)
    rw [hitState_pool, hitState_pages_ne b fid f hne]
    exact hInv.free_ok f hf
  · intro q g hq
    rw [hitState_table] at hq
    rw [hitState_pool, hitState_pages_id]
    exact hInv.table_ok q g hq
  · intro g hlt hval
    rw [hitState_pool] at hlt
    rw [hitState_pages_id] at hval
    rw [hitState_table, hitState_pages_id]
    exact hInv.self_mapped g hlt hval
  · rw [hitState_repl]
    exact hInv.repl_nodup.erase fid
  · rw [hitState_free]
    exact hInv.free_nodup
  · intro q g hq
    rw [hitState_table] at hq
    rw [hitState_alloc]
    exact hInv.alloc_fresh q g hq

/-- A successful `unpin_page` preserves the invariant. -/
theorem Inv_unpinState (b : BufferPool) (hInv : b.Inv) (pid : PageId)
    (fid : Nat) (d : Bool) (hpt : b.page_table pid = some fid)
    (hpin : (b.pages fid).pin_count ≠ 0) : (b.unpinState fid d).Inv := by
  have htab := hInv.table_ok pid fid hpt
  refine ⟨?_, ?_, ?_, ?_, ?_, ?_, ?_⟩
  · intro f hf
    rw [unpinState_repl] at hf
    rw [unpinState_pool]
    by_cases hz : (b.pages fid).pin_count - 1 = 0
    · rw [if_pos hz] at hf
      rcases mem_repl_unpin _ _ _ hf with rfl | hmem
      · refine ⟨htab.1, ?_⟩
        rw [unpinState_pin_self]
        exact hz
      · have hm := hInv.repl_ok f hmem
        have hne : f ≠ fid := by
          intro he
          exact hpin (he ▸ hm.2)
        rw [unpinState_pages_ne b fid d f hne]
        exact hm
    · rw [if_neg hz] at hf
      have hm := hInv.repl_ok f hf
      have hne : f ≠ fid := by
        intro he
        exact hpin (he ▸ hm.2)
      rw [unpinState_pages_ne b fid d f hne]
      exact hm
  · intro f hf
    rw [unpinState_free] at hf
    have hne : f ≠ fid := by
      intro he
      exact mapped_not_free b hInv pid fid hpt (he ▸ hf)
    rw [unpinState_pool, unpinState_pages_ne b fid d f hne]
    exact hInv.free_ok f hf
  · intro q g hq
    rw [unpinState_table] at hq
    rw [unpinState_pool, unpinState_pages_id]
    exact hInv.table_ok q g hq
  · intro g hlt hval
    rw [unpinState_pool] at hlt
    rw [unpinState_pages_id] at hval
    rw [unpinState_table, unpinState_pages_id]
    exact hInv.self_mapped g hlt hval
  · rw [unpinState_repl]
    by_cases hz : (b.pages fid).pin_count - 1 = 0
    · rw [if_pos hz]
      exact nodup_repl_unpin _ _ hInv.repl_nodup
    · rw [if_neg hz]
      exact hInv.repl_nodup
  · rw [unpinState_free]
    exact hInv.free_nodup
  · intro q g hq
    rw [unpinState_table] at hq
    rw [unpinState_alloc]
    exact hInv.alloc_fresh q g hq

/-- `flush_page` preserves the invariant. -/
theorem Inv_flushState (b : BufferPool) (hInv : b.Inv) (fid : Nat) :
    (b.flushState fid).Inv := by
  refine ⟨?_, ?_, ?_, ?_, ?_, ?_, ?_⟩
  · intro f hf
    rw [flushState_repl] at hf
    rw [flushState_pool, flushState_pages_pin]
    exact hInv.repl_ok f hf
  · intro f hf
    rw [flushState_free] at hf
    rw [flushState_pool, flushState_pages_pin, flushState_pages_id]
    exact hInv.free_ok f hf
  · intro q g hq
    rw [flushState_table] at hq
    rw [flushState_pool, flushState_pages_id]
    exact hInv.table_ok q g hq
  · intro g hlt hval
    rw [flushState_pool] at hlt
    rw [flushState_pages_id] at hval
    rw [flushState_table, flushState_pages_id]
    exact hInv.self_mapped g hlt hval
  · rw [flushState_repl]
    exact hInv.repl_nodup
  · rw [flushState_free]
    exact hInv.free_nodup
  · intro q g hq
    rw [flushState_table] at hq
    rw [flushState_alloc]
    exact hInv.alloc_fresh q g hq

/-- A successful `delete_page` preserves the invariant. -/
theorem Inv_delState (b : BufferPool) (hInv : b.Inv) (pid : PageId)
    (fid : Nat) (hpt : b.page_table pid = some fid)
    (hpin : (b.pages fid).pin_count = 0) : (b.delState fid pid).Inv := by
  have htab := hInv.table_ok pid fid hpt
  refine ⟨?_, ?_, ?_, ?_, ?_, ?_, ?_⟩
  · intro f hf
    rw [delState_repl] at hf
    have hm := hInv.repl_ok f hf
    rw [delState_pool]
    by_cases hg : f = fid
    · subst hg
      refine ⟨hm.1, ?_⟩
      rw [delState_pages_self]
    · rw [delState_pages_ne b fid pid f hg]
      exact hm
  · intro f hf
    rw [delState_free] at hf
    rw [delState_pool]
    rcases List.mem_append.mp hf with hf1 | hf2
    · have hne : f ≠ fid := by
        intro he
        exact mapped_not_free b hInv pid fid hpt (he ▸ hf1)
      rw [delState_pages_ne b fid pid f hne]
      exact hInv.free_ok f hf1
    · have he : f = fid := List.mem_singleton.mp hf2
      subst he
      rw [delState_pages_self]
      exact ⟨htab.1, rfl, rfl⟩
  · intro q g hq
    rw [delState_table] at hq
    by_cases hqp : q = pid
    · rw [if_pos hqp] at hq
      exact Option.noConfusion hq
    · rw [if_neg hqp] at hq
      have hm := hInv.table_ok q g hq
      have hg : g ≠ fid := by
        intro he
        apply hqp
        rw [← hm.2.1, he, htab.2.1]
      rw [delState_pool, delState_pages_ne b fid pid g hg]
      exact hm
  · intro g hlt hval
    rw [delState_pool] at hlt
    by_cases hg : g = fid
    · subst hg
      rw [delState_pages_self] at hval
      exact absurd hval (by decide)
    · rw [delState_pages_ne b fid pid g hg] at hval
      have hsm := hInv.self_mapped g hlt hval
      rw [delState_pages_ne b fid pid g hg, delState_table]
      have hqp : (b.pages g).id ≠ pid := by
        intro he
        rw [he, hpt] at hsm
        exact hg (Option.some.inj hsm).symm
      rw [if_neg hqp]
      exact hsm
  · rw [delState_repl]
    exact hInv.repl_nodup
  · rw [delState_free]
    refine List.nodup_append.mpr ⟨hInv.free_nodup, List.nodup_singleton fid, ?_⟩
    intro x hx hx2
    rw [List.mem_singleton] at hx2
    exact mapped_not_free b hInv pid fid hpt (hx2 ▸ hx)
  · intro q g hq
    rw [delState_table] at hq
    by_cases hqp : q = pid
    · rw [if_pos hqp] at hq
      exact Option.noConfusion hq
    · rw [if_neg hqp] at hq
      rw [delState_alloc]
      exact hInv.alloc_fresh q g hq

/-- A `fetch_page` miss (with a victim) preserves the invariant, for a
valid allocated page id. -/
theorem Inv_missState (b : BufferPool) (hInv : b.Inv) (pid : PageId)
    (fid : Nat) (b1 : BufferPool) (hpt : b.page_table pid = none)
    (hv : b.find_victim_page = (some fid, b1)) (hge : 0 ≤ pid.page_no)
    (hlt : pid.page_no < (b.alloc pid.fd : Int)) :
    (b1.missState fid pid).Inv := by
  obtain ⟨hP, hT, hS, hA, hR, hRn, hF, hFn⟩ := victim_state_facts b hInv fid b1 hv
  have hvic := find_victim_unpinned b hInv fid b1 hv
  refine ⟨?_, ?_, ?_, ?_, ?_, ?_, ?_⟩
  · intro f hf
    rw [missState_repl] at hf
    have hne : f ≠ fid := (hRn.mem_erase_iff.mp hf).1
    have hm := hInv.repl_ok f (hR f (List.mem_of_mem_erase hf))
    rw [missState_pool, hS, missState_pages_ne b1 fid pid f hne, hP]
    exact hm
  · intro f hf
    rw [missState_free] at hf
    obtain ⟨hmem, hne⟩ := hF f hf
    rw [missState_pool, hS, missState_pages_ne b1 fid pid f hne, hP]
    exact hInv.free_ok f hmem
  · intro q g hq
    rw [missState_table] at hq
    by_cases h1 : q = pid
    · rw [if_pos h1] at hq
      obtain rfl : fid = g := Option.some.inj hq
      subst h1
      refine ⟨?_, ?_, hge⟩
      · rw [missState_pool, hS]
        exact hvic.1
      · rw [missState_pages_self_id]
    · rw [if_neg h1] at hq
      by_cases h2 : q = (b1.pages fid).id
      · rw [if_pos h2] at hq
        exact Option.noConfusion hq
      · rw [if_neg h2] at hq
        rw [hT] at hq
        have hm := hInv.table_ok q g hq
        have hg : g ≠ fid := by
          intro he
          apply h2
          rw [← hm.2.1, he, hP]
        refine ⟨?_, ?_, hm.2.2⟩
        · rw [missState_pool, hS]
          exact hm.1
        · rw [missState_pages_ne b1 fid pid g hg, hP]
          exact hm.2.1
  · intro g hglt hval2
    rw [missState_pool, hS] at hglt
    by_cases hg : g = fid
    · subst hg
      rw [missState_pages_self_id, missState_table, if_pos rfl]
    · rw [missState_pages_ne b1 fid pid g hg, hP] at hval2 ⊢
      have hsm := hInv.self_mapped g hglt hval2
      rw [missState_table]
      have h1 : (b.pages g).id ≠ pid := by
        intro he
        rw [he, hpt] at hsm
        exact Option.noConfusion hsm
      have h2 : (b.pages g).id ≠ (b1.pages fid).id := by
        rw [hP]
        intro he
        by_cases hov : 0 ≤ (b.pages fid).id.page_no
        · have hsf := hInv.self_mapped fid hvic.1 hov
          rw [← he, hsm] at hsf
          exact hg (Option.some.inj hsf)
        · rw [he] at hval2
          exact hov hval2
      rw [if_neg h1, if_neg h2, hT]
      exact hsm
  · rw [missState_repl]
    exact hRn.erase fid
  · rw [missState_free]
    exact hFn
  · intro q g hq
    rw [missState_table] at hq
    rw [missState_alloc, hA]
    by_cases h1 : q = pid
    · subst h1
      exact hlt
    · rw [if_neg h1] at hq
      by_cases h2 : q = (b1.pages fid).id
      · rw [if_pos h2] at hq
        exact Option.noConfusion hq
      · rw [if_neg h2] at hq
        rw [hT] at hq
        exact hInv.alloc_fresh q g hq

/-- `new_page` (with a victim) preserves the invariant. -/
theorem Inv_newState (b : BufferPool) (hInv : b.Inv) (fd : Int) (fid : Nat)
    (b1 : BufferPool) (hv : b.find_victim_page = (some fid, b1)) :
    (b1.newState fid fd).Inv := by
  obtain ⟨hP, hT, hS, hA, hR, hRn, hF, hFn⟩ := victim_state_facts b hInv fid b1 hv
  have hvic := find_victim_unpinned b hInv fid b1 hv
  have hfresh : b.page_table ⟨fd, (b.alloc fd : Int)⟩ = none := by
    cases hq : b.page_table ⟨fd, (b.alloc fd : Int)⟩ with
    | none => rfl
    | some g =>
      have hh := hInv.alloc_fresh _ g hq
      exact absurd hh (lt_irrefl _)
  refine ⟨?_, ?_, ?_, ?_, ?_, ?_, ?_⟩
  · intro f hf
    rw [newState_repl] at hf
    have hne : f ≠ fid := (hRn.mem_erase_iff.mp hf).1
    have hm := hInv.repl_ok f (hR f (List.mem_of_mem_erase hf))
    rw [newState_pool, hS, newState_pages_ne b1 fid fd f hne, hP]
    exact hm
  · intro f hf
    rw [newState_free] at hf
    obtain ⟨hmem, hne⟩ := hF f hf
    rw [newState_pool, hS, newState_pages_ne b1 fid fd f hne, hP]
    exact hInv.free_ok f hmem
  · intro q g hq
    rw [newState_table] at hq
    by_cases h1 : q = ⟨fd, (b1.alloc fd : Int)⟩
    · rw [if_pos h1] at hq
      obtain rfl : fid = g := Option.some.inj hq
      subst h1
      refine ⟨?_, ?_, ?_⟩
      · rw [newState_pool, hS]
        exact hvic.1
      · rw [newState_pages_self_id]
      · exact Int.natCast_nonneg _
    · rw [if_neg h1] at hq
      by_cases h2 : q = (b1.pages fid).id
      · rw [if_pos h2] at hq
        exact Option.noConfusion hq
      · rw [if_neg h2] at hq
        rw [hT] at hq
        have hm := hInv.table_ok q g hq
        have hg : g ≠ fid := by
          intro he
          apply h2
          rw [← hm.2.1, he, hP]
        refine ⟨?_, ?_, hm.2.2⟩
        · rw [newState_pool, hS]
          exact hm.1
        · rw [newState_pages_ne b1 fid fd g hg, hP]
          exact hm.2.1
  · intro g hglt hval2
    rw [newState_pool, hS] at hglt
    by_cases hg : g = fid
    · subst hg
      rw [newState_pages_self_id, newState_table, if_pos rfl]
    · rw [newState_pages_ne b1 fid fd g hg, hP] at hval2 ⊢
      have hsm := hInv.self_mapped g hglt hval2
      rw [newState_table]
      have h1 : (b.pages g).id ≠ ⟨fd, (b1.alloc fd : Int)⟩ := by
        intro he
        rw [he, hA, hfresh] at hsm
        exact Option.noConfusion hsm
      have h2 : (b.pages g).id ≠ (b1.pages fid).id := by
        rw [hP]
        intro he
        by_cases hov : 0 ≤ (b.pages fid).id.page_no
        · have hsf := hInv.self_mapped fid hvic.1 hov
          rw [← he, hsm] at hsf
          exact hg (Option.some.inj hsf)
        · rw [he] at hval2
          exact hov hval2
      rw [if_neg h1, if_neg h2, hT]
      exact hsm
  · rw [newState_repl]
    exact hRn.erase fid
  · rw [newState_free]
    exact hFn
  · intro q g hq
    rw [newState_table] at hq
    by_cases h1 : q = ⟨fd, (b1.alloc fd : Int)⟩
    · subst h1
      rw [show (⟨fd, (b1.alloc fd : Int)⟩ : PageId).fd = fd from rfl,
        newState_alloc, if_pos rfl, hA]
      show ((b.alloc fd : Nat) : Int) < ((b.alloc fd + 1 : Nat) : Int)
      omega
    · rw [if_neg h1] at hq
      by_cases h2 : q = (b1.pages fid).id
      · rw [if_pos h2] at hq
        exact Option.noConfusion hq
      · rw [if_neg h2] at hq
        rw [hT] at hq
        have hm := hInv.alloc_fresh q g hq
        rw [newState_alloc, hA]
        by_cases h3 : q.fd = fd
        · rw [if_pos h3]
          rw [h3] at hm
          omega
        · rw [if_neg h3]
          exact hm

/-- Every valid buffer-pool call preserves the invariant. -/
theorem Inv_step (b : BufferPool) (hInv : b.Inv) (op : BpOp)
    (hop : BpOp.valid b op) : (BpOp.step op b).Inv := by
  cases op with
  | fetch pid =>
    obtain ⟨hge, hlt⟩ := hop
    show ((b.fetch_page pid).2).Inv
    cases hq : b.page_table pid with
    | some g =>
      rw [fetch_page_hit b pid g hq]
      exact Inv_hitState b hInv pid g hq
    | none =>
      rcases hvv : b.find_victim_page with ⟨o, b1⟩
      cases o with
      | none =>
        rw [fetch_page_fail b pid b1 hq hvv]
        show b1.Inv
        rw [find_victim_none_eq b b1 hvv]
        exact hInv
      | some g =>
        rw [fetch_page_miss b pid g b1 hq hvv]
        exact Inv_missState b hInv pid g b1 hq hvv hge hlt
  | unpin pid d =>
    show ((b.unpin_page pid d).2).Inv
    cases hq : b.page_table pid with
    | none =>
      rw [unpin_page_none b pid d hq]
      exact hInv
    | some g =>
      by_cases hz : (b.pages g).pin_count = 0
      · rw [unpin_page_zero b pid d g hq hz]
        exact hInv
      · rw [unpin_page_go b pid d g hq hz]
        exact Inv_unpinState b hInv pid g d hq hz
  | newp fd =>
    show ((b.new_page fd).2).Inv
    rcases hvv : b.find_victim_page with ⟨o, b1⟩
    cases o with
    | none =>
      rw [new_page_fail b fd b1 hvv]
      show b1.Inv
      rw [find_victim_none_eq b b1 hvv]
      exact hInv
    | some g =>
      rw [new_page_go b fd g b1 hvv]
      exact Inv_newState b hInv fd g b1 hvv
  | del pid =>
    show ((b.delete_page pid).2).Inv
    cases hq : b.page_table pid with
    | none =>
      rw [delete_page_none b pid hq]
      exact hInv
    | some g =>
      by_cases hz : 0 < (b.pages g).pin_count
      · rw [delete_page_pinned b pid g hq hz]
        exact hInv
      · rw [delete_page_go b pid g hq hz]
        exact Inv_delState b hInv pid g hq (by omega)
  | flush pid =>
    show ((b.flush_page pid).2).Inv
    cases hq : b.page_table pid with
    | none =>
      rw [flush_page_none b pid hq]
      exact hInv
    | some g =>
      rw [flush_page_go b pid g hq]
      exact Inv_flushState b hInv g

/-- No buffer-pool call unmaps a pinned resident page. -/
theorem step_preserves_mapping (b : BufferPool) (hInv : b.Inv) (pid : PageId)
    (fid : Nat) (hpt : b.page_table pid = some fid)
    (hpin : 0 < (b.pages fid).pin_count) (op : BpOp) :
    (BpOp.step op b).page_table pid = some fid := by
  have htab := hInv.table_ok pid fid hpt
  cases op with
  | fetch q =>
    show ((b.fetch_page q).2).page_table pid = some fid
    cases hq : b.page_table q with
    | some g =>
      rw [fetch_page_hit b q g hq]
      show (b.hitState g).page_table pid = some fid
      rw [hitState_table]
      exact hpt
    | none =>
      rcases hvv : b.find_victim_page with ⟨o, b1⟩
      cases o with
      | none =>
        rw [fetch_page_fail b q b1 hq hvv]
        show b1.page_table pid = some fid
        rw [find_victim_none_eq b b1 hvv]
        exact hpt
      | some g =>
        rw [fetch_page_miss b q g b1 hq hvv]
        show (b1.missState g q).page_table pid = some fid
        obtain ⟨hP, hT, hS, hA, hR, hRn, hF, hFn⟩ :=
          victim_state_facts b hInv g b1 hvv
        have hvic := find_victim_unpinned b hInv g b1 hvv
        rw [missState_table]
        have h1 : pid ≠ q := by
          intro he
          rw [he, hq] at hpt
          exact Option.noConfusion hpt
        have hgfid : g ≠ fid := by
          intro he
          rw [he] at hvic
          omega
        have h2 : pid ≠ (b1.pages g).id := by
          rw [hP]
          intro he
          by_cases hov : 0 ≤ (b.pages g).id.page_no
          · have hsf := hInv.self_mapped g hvic.1 hov
            rw [← he, hpt] at hsf
            exact hgfid (Option.some.inj hsf).symm
          · apply hov
            rw [← he]
            exact htab.2.2
        rw [if_neg h1, if_neg h2, hT]
        exact hpt
  | unpin q d =>
    show ((b.unpin_page q d).2).page_table pid = some fid
    cases hq : b.page_table q with
    | none =>
      rw [unpin_page_none b q d hq]
      exact hpt
    | some g =>
      by_cases hz : (b.pages g).pin_count = 0
      · rw [unpin_page_zero b q d g hq hz]
        exact hpt
      · rw [unpin_page_go b q d g hq hz]
        show (b.unpinState g d).page_table pid = some fid
        rw [unpinState_table]
        exact hpt
  | newp fd =>
    show ((b.new_page fd).2).page_table pid = some fid
    rcases hvv : b.find_victim_page with ⟨o, b1⟩
    cases o with
    | none =>
      rw [new_page_fail b fd b1 hvv]
      show b1.page_table pid = some fid
      rw [find_victim_none_eq b b1 hvv]
      exact hpt
    | some g =>
      rw [new_page_go b fd g b1 hvv]
      show (b1.newState g fd).page_table pid = some fid
      obtain ⟨hP, hT, hS, hA, hR, hRn, hF, hFn⟩ :=
        victim_state_facts b hInv g b1 hvv
      have hvic := find_victim_unpinned b hInv g b1 hvv
      have hfresh : b.page_table ⟨fd, (b.alloc fd : Int)⟩ = none := by
        cases hq2 : b.page_table ⟨fd, (b.alloc fd : Int)⟩ with
        | none => rfl
        | some g2 =>
          have hh := hInv.alloc_fresh _ g2 hq2
          exact absurd hh (lt_irrefl _)
      rw [newState_table]
      have hgfid : g ≠ fid := by
        intro he
        rw [he] at hvic
        omega
      have h1 : pid ≠ ⟨fd, (b1.alloc fd : Int)⟩ := by
        intro he
        have hpt2 := hpt
        rw [he, hA, hfresh] at hpt2
        exact Option.noConfusion hpt2
      have h2 : pid ≠ (b1.pages g).id := by
        rw [hP]
        intro he
        by_cases hov : 0 ≤ (b.pages g).id.page_no
        · have hsf := hInv.self_mapped g hvic.1 hov
          rw [← he, hpt] at hsf
          exact hgfid (Option.some.inj hsf).symm
        · apply hov
          rw [← he]
          exact htab.2.2
      rw [if_neg h1, if_neg h2, hT]
      exact hpt
  | del q =>
    show ((b.delete_page q).2).page_table pid = some fid
    cases hq : b.page_table q with
    | none =>
      rw [delete_page_none b q hq]
      exact hpt
    | some g =>
      by_cases hz : 0 < (b.pages g).pin_count
      · rw [delete_page_pinned b q g hq hz]
        exact hpt
      · rw [delete_page_go b q g hq hz]
        show (b.delState g q).page_table pid = some fid
        rw [delState_table]
        have h1 : pid ≠ q := by
          intro he
          have hpt2 := hpt
          rw [he, hq] at hpt2
          obtain rfl : fid = g := (Option.some.inj hpt2).symm
          exact hz hpin
        rw [if_neg h1]
        exact hpt
  | flush q =>
    show ((b.flush_page q).2).page_table pid = some fid
    cases hq : b.page_table q with
    | none =>
      rw [flush_page_none b q hq]
      exact hpt
    | some g =>
      rw [flush_page_go b q g hq]
      show (b.flushState g).page_table pid = some fid
      rw [flushState_table]
      exact hpt

/-- `unpin_page` above pin count one does not touch the replacer. -/
theorem unpin_above_one_silent (b : BufferPool) (pid : PageId) (fid : Nat)
    (d : Bool) (hpt : b.page_table pid = some fid)
    (hgt : 1 < (b.pages fid).pin_count) :
    ((b.unpin_page pid d).2).replacer = b.replacer := by
  rw [unpin_page_go b pid d fid hpt (by omega)]
  show (b.unpinState fid d).replacer = b.replacer
  rw [unpinState_repl, if_neg (by omega)]

/-- A `fetch_page` hit returns the mapped frame and removes it from the
replacer. -/
theorem fetch_hit_frame (b : BufferPool) (hInv : b.Inv) (pid : PageId)
    (fid : Nat) (hpt : b.page_table pid = some fid) :
    (b.fetch_page pid).1 = some fid ∧
    fid ∉ ((b.fetch_page pid).2).replacer.lru_list := by
  rw [fetch_page_hit b pid fid hpt]
  refine ⟨rfl, ?_⟩
  show fid ∉ (b.hitState fid).replacer.lru_list
  rw [hitState_repl]
  intro hmem
  exact (hInv.repl_nodup.mem_erase_iff.mp hmem).1 rfl

/-- When every frame is pinned, a `fetch_page` miss returns `nullptr` and
leaves the pool untouched. -/
theorem fetch_all_pinned (b : BufferPool) (hInv : b.Inv)
    (hall : ∀ f, f < b.pool_size → 0 < (b.pages f).pin_count)
    (pid : PageId) (hpt : b.page_table pid = none) :
    b.fetch_page pid = (none, b) := by
  have hfree : b.free_list = [] := by
    refine List.eq_nil_iff_forall_not_mem.mpr ?_
    intro f hf
    have hm := hInv.free_ok f hf
    have hp := hall f hm.1
    rw [hm.2.1] at hp
    exact absurd hp (lt_irrefl 0)
  have hlru : b.replacer.lru_list = [] := by
    refine List.eq_nil_iff_forall_not_mem.mpr ?_
    intro f hf
    have hm := hInv.repl_ok f hf
    have hp := hall f hm.1
    rw [hm.2] at hp
    exact absurd hp (lt_irrefl 0)
  exact fetch_page_fail b pid b hpt (find_victim_nothing b hfree hlru)

/-- C7: a page resident in the buffer pool with a positive pin count is
never victimized and never evicted.  In an invariant state: a frame chosen
by `find_victim_page` always has pin count zero; every valid call
preserves the invariant; no call removes the page-table entry of a pinned
page; `unpin_page` with a pin count still above one leaves the replacer
untouched (the replacer is notified only when the count reaches zero); a
`fetch_page` hit returns the mapped frame and removes it from the
replacer; and when every frame is pinned, a `fetch_page` miss returns
`nullptr` (`none`) and changes nothing. -/
theorem C7_pinned_pages_never_evicted (b : BufferPool) (hInv : b.Inv) :
    (∀ f b2, b.find_victim_page = (some f, b2) → (b.pages f).pin_count = 0) ∧
    (∀ op, BpOp.valid b op → (BpOp.step op b).Inv) ∧
    (∀ pid fid, b.page_table pid = some fid → 0 < (b.pages fid).pin_count →
      ∀ op, (BpOp.step op b).page_table pid = some fid) ∧
    (∀ pid fid d, b.page_table pid = some fid →
      1 < (b.pages fid).pin_count →
      ((b.unpin_page pid d).2).replacer = b.replacer) ∧
    (∀ pid fid, b.page_table pid = some fid →
      (b.fetch_page pid).1 = some fid ∧
      fid ∉ ((b.fetch_page pid).2).replacer.lru_list) ∧
    ((∀ f, f < b.pool_size → 0 < (b.pages f).pin_count) →
      ∀ pid, b.page_table pid = none → b.fetch_page pid = (none, b)) :=
  ⟨fun f b2 h => (find_victim_unpinned b hInv f b2 h).2,
   fun op hop => Inv_step b hInv op hop,
   fun pid fid hpt hpin op => step_preserves_mapping b hInv pid fid hpt hpin op,
   fun pid fid d hpt hgt => unpin_above_one_silent b pid fid d hpt hgt,
   fun pid fid hpt => fetch_hit_frame b hInv pid fid hpt,
   fun hall pid hpt => fetch_all_pinned b hInv hall pid hpt⟩

/-- The fresh one-frame pool satisfies the invariant. -/
theorem bp0_inv : bp0.Inv := by
  refine ⟨?_, ?_, ?_, ?_, ?_, ?_, ?_⟩
  · intro f hf
    exact absurd hf (List.not_mem_nil f)
  · intro f hf
    have he : f = 0 := List.mem_singleton.mp hf
    subst he
    exact ⟨Nat.zero_lt_one, rfl, rfl⟩
  · intro pid f h
    exact Option.noConfusion h
  · intro f hlt hval
    have hval2 : (0 : Int) ≤ -1 := hval
    exact absurd hval2 (by decide)
  · exact List.nodup_nil
  · exact List.nodup_singleton 0
  · intro pid f h
    exact Option.noConfusion h

/-- C7 witness: the theorem applied to the concrete fresh pool `bp0`;
with everything (vacuously) pinned, a fetch of an unmapped page yields
`none` and leaves `bp0` unchanged, and `find_victim_page` of `bp0` indeed
hands out only unpinned frames. -/
theorem C7_witness :
    bp0.Inv ∧
    ((∀ f, f < bp0.pool_size → 0 < (bp0.pages f).pin_count) →
      ∀ pid, bp0.page_table pid = none → bp0.fetch_page pid = (none, bp0)) ∧
    (∀ f b2, bp0.find_victim_page = (some f, b2) →
      (bp0.pages f).pin_count = 0) :=
  ⟨bp0_inv,
   (C7_pinned_pages_never_evicted bp0 bp0_inv).2.2.2.2.2,
   (C7_pinned_pages_never_evicted bp0 bp0_inv).1⟩

end Rmdb
